import Mathlib

/-!
# Verification of the `@dazl/state` store core (`BaseStore` + `History`)

Shallow embedding of `src/packages/state/src/base-store.ts` and
`src/packages/state/src/history.ts`.

JavaScript object references are modelled by `RefVal`: every assignment
`this.state = { ... }` in an action body allocates a fresh address, so JS
reference equality (`===`) becomes equality of addresses.  Exceptions are
modelled with `Except String`; since all nested action calls in the source
are sequentially awaited, `async` execution collapses to a sequential
interpreter over an explicit store record.
-/

namespace Dazl

/-- Payload values carried by action records.  `args` models plain user
payload objects such as `{ amount: 2 }`; `flushMeta` models the payload of
the synthetic `FLUSH` action (ordered list of flushed action type names and
a flush timestamp); `restoreMeta` models the `HISTORY_RESTORE` payload. -/
inductive Payload where
  | empty : Payload
  | args : List (String × Int) → Payload
  | flushMeta : List String → Nat → Payload
  | restoreMeta : Nat → Payload
deriving DecidableEq

/-- `ActionType = { type: string; payload }` from `base-store.ts`. -/
structure ActionType where
  type : String
  payload : Payload
deriving DecidableEq

/-- A JS object reference holding a state value: `addr` is the identity of
the allocation, `val` its contents.  Reference equality (`===`) is equality
of `addr`. -/
structure RefVal (σ : Type) where
  addr : Nat
  val : σ
deriving DecidableEq

/-- One notification delivered to the subscriber set: the arguments of a
`notifySubscribers` call that passed its `prevState === nextState` gate. -/
structure Notification (σ : Type) where
  prev : RefVal σ
  next : RefVal σ
  actions : List ActionType
deriving DecidableEq

/-- The mutable fields of a `BaseStore` instance (`base-store.ts`, lines
46-55), together with bookkeeping of the shallow embedding: `nextAddr` is
the allocator for fresh object references, `clock` models `Date.now()`, and
`notifications` records every notification that was actually delivered to
the subscriber set. -/
structure Store (σ : Type) where
  state : RefVal σ
  batchCount : Nat
  batchedActions : Option (List ActionType)
  initialState : Option (RefVal σ)
  /-- `abortController`: `none` = no controller; `some b` = a controller
  whose `signal.aborted` is `b`. -/
  abortSignal : Option Bool
  nextAddr : Nat
  clock : Nat
  notifications : List (Notification σ)
deriving DecidableEq

/-- `getSnapshot()` returns the current state reference. -/
def Store.getSnapshot (s : Store σ) : RefVal σ := s.state

/-- The batch cleanup at the end of the `finally` block of `action`
(lines 129-131): `abortController`, `batchedActions` and `initialState`
are reset to `undefined`. -/
def clearBatch (s : Store σ) : Store σ :=
  { s with abortSignal := none, batchedActions := none, initialState := none }

/-- The store-level observable effect of `notifySubscribers` (lines
165-178): if `prevState === nextState` nothing happens, otherwise the
notification is delivered to the subscriber set (recorded in
`notifications`).  The per-subscriber filter/callback dispatch is modelled
separately by `notifySubscribers` below. -/
def notifyGate (prev next : RefVal σ) (actions : List ActionType) (s : Store σ) : Store σ :=
  if prev.addr = next.addr then s
  else { s with notifications := s.notifications ++ [⟨prev, next, actions⟩] }

/-- `restoreFromHistory(newState)` (lines 152-163): replace the state and
notify subscribers with a single synthetic `HISTORY_RESTORE` action. -/
def Store.restoreFromHistory (newState : RefVal σ) (s : Store σ) : Store σ :=
  let prevState := s.state
  let s1 := { s with state := newState }
  notifyGate prevState newState [⟨"HISTORY_RESTORE", Payload.restoreMeta s1.clock⟩] s1

/-- `abort()` (lines 139-145): abort the current controller, or throw if no
action is running. -/
def Store.abort (s : Store σ) : Except String (Store σ) :=
  match s.abortSignal with
  | some _ => Except.ok { s with abortSignal := some true }
  | none => Except.error "No action is currently running to abort"

/-- Syntax of action bodies (the `fn` argument of `action`), as the source
uses them: assigning a freshly allocated object to `this.state`, sequencing
(the bodies `await` every nested call), invoking a nested action (itself
built by `action(type, fn)`), throwing, and calling `this.abort()`. -/
inductive Body (σ : Type) where
  | skip : Body σ
  | assign : (σ → σ) → Body σ
  | seq : Body σ → Body σ → Body σ
  | call : String → Payload → Body σ → Body σ
  | throwErr : String → Body σ
  | abortCall : Body σ

/-- The prologue of an `action` invocation (lines 103-111): record the
checkpoint if this is the root call, ensure an abort controller and an
action log exist, append the action record (before the body runs), and
increment the nesting counter. -/
def beginAction (t : String) (p : Payload) (s : Store σ) : Store σ :=
  let s0 := if s.batchCount == 0 then { s with initialState := some s.state } else s
  { s0 with
    abortSignal := some (s0.abortSignal.getD false),
    batchedActions := some (s0.batchedActions.getD [] ++ [⟨t, p⟩]),
    batchCount := s0.batchCount + 1 }

/-- The epilogue of an `action` invocation (lines 112-133): after the body
finished with result `r0`, throw `Action aborted` if the signal fired
(line 115-117), decrement the nesting counter, and — when the root level is
reached — either roll back to the checkpoint (on error) or notify
subscribers once, then clear the batch bookkeeping. -/
def settleAction (r0 : Except String Unit) (s2 : Store σ) : Except String Unit × Store σ :=
  let r : Except String Unit :=
    match r0 with
    | Except.ok _ => if s2.abortSignal = some true then Except.error "Action aborted" else Except.ok ()
    | Except.error e => Except.error e
  let s3 := { s2 with batchCount := s2.batchCount - 1 }
  if s3.batchCount = 0 then
    match s3.initialState with
    | some init =>
      match r with
      | Except.error e => (Except.error e, clearBatch { s3 with state := init })
      | Except.ok _ =>
          (Except.ok (), clearBatch (notifyGate init s3.state (s3.batchedActions.getD []) s3))
    | none => (r, s3)
  else (r, s3)

/-- Sequential interpreter for action bodies over a `Store`.  The `call`
case is exactly the closure returned by `action(type, fn)` (lines
102-134): prologue, run the body, epilogue. -/
def runBody : Body σ → Store σ → Except String Unit × Store σ
  | Body.skip, s => (Except.ok (), s)
  | Body.assign f, s =>
      (Except.ok (), { s with state := ⟨s.nextAddr, f s.state.val⟩, nextAddr := s.nextAddr + 1 })
  | Body.seq a b, s =>
      match runBody a s with
      | (Except.ok _, s1) => runBody b s1
      | (Except.error e, s1) => (Except.error e, s1)
  | Body.throwErr m, s => (Except.error m, s)
  | Body.abortCall, s =>
      match s.abortSignal with
      | some _ => (Except.ok (), { s with abortSignal := some true })
      | none => (Except.error "No action is currently running to abort", s)
  | Body.call t p b, s =>
      match runBody b (beginAction t p s) with
      | (r0, s2) => settleAction r0 s2

/-- Invoking the closure returned by `action(type, fn)` from the outside. -/
def runAction (t : String) (p : Payload) (b : Body σ) (s : Store σ) :
    Except String Unit × Store σ :=
  runBody (Body.call t p b) s

/-- The ordered list of action records generated by a body when it runs to
completion: each `call` appends its record before its own body runs. -/
def trace : Body σ → List ActionType
  | Body.skip => []
  | Body.assign _ => []
  | Body.seq a b => trace a ++ trace b
  | Body.call t p b => ⟨t, p⟩ :: trace b
  | Body.throwErr _ => []
  | Body.abortCall => []

/-- A store with no batch in flight: the state between top-level actions. -/
def Store.Idle (s : Store σ) : Prop :=
  s.batchCount = 0 ∧ s.batchedActions = none ∧ s.initialState = none ∧ s.abortSignal = none

/-- Every recorded notification has reference-distinct previous and next
states (the `prevState === nextState` early return of `notifySubscribers`). -/
def GateOK (s : Store σ) : Prop :=
  ∀ n ∈ s.notifications, n.prev.addr ≠ n.next.addr

/-- A freshly constructed store holding the state `{ count: 0 }`
(state modelled as the single `count` field). -/
def natStore : Store Nat :=
  { state := ⟨0, 0⟩, batchCount := 0, batchedActions := none, initialState := none,
    abortSignal := none, nextAddr := 1, clock := 0, notifications := [] }

/-- The body of `increment(amount)`: `count += amount` via a fresh object. -/
def incBody (amount : Nat) : Body Nat := Body.assign (· + amount)

/-- The body of the composite action that runs `increment(2)` then
`increment(3)` as nested actions. -/
def compositeBody : Body Nat :=
  Body.seq (Body.call "INCREMENT" (Payload.args [("amount", 2)]) (incBody 2))
           (Body.call "INCREMENT" (Payload.args [("amount", 3)]) (incBody 3))

/-! ## The `uniqueId` registry (`base-store.ts`, lines 19 and 33-45) -/

/-- Characters after the first `://` of a URL, if any. -/
def afterScheme : List Char → Option (List Char)
  | [] => none
  | ':' :: '/' :: '/' :: rest => some rest
  | _ :: rest => afterScheme rest

/-- Drop the authority part: everything before the first `/`. -/
def dropHost : List Char → List Char
  | [] => []
  | '/' :: rest => '/' :: rest
  | _ :: rest => dropHost rest

/-- `new URL(url).pathname` for well-formed absolute URLs: drop the scheme
and the authority, keep the leading-slash path. -/
def pathnameOf (url : String) : String :=
  match afterScheme url.data with
  | some rest =>
      match dropHost rest with
      | [] => "/"
      | l => String.mk l
  | none => url

/-- `Map.get` on the static `ids` registry. -/
def idsGet : List (String × String) → String → Option String
  | [], _ => none
  | (k, v) :: rest, key => if k = key then some v else idsGet rest key

/-- `Map.set` on the static `ids` registry: replace an existing binding in
place or append a fresh one. -/
def idsSet : List (String × String) → String → String → List (String × String)
  | [], key, val => [(key, val)]
  | (k, v) :: rest, key, val =>
      if k = key then (key, val) :: rest else (k, v) :: idsSet rest key val

/-- `BaseStore.uniqueId(id, url)` with the static registry threaded
explicitly: reject ids containing `@`, reject a duplicate id registered
from a different pathname, and otherwise record `id@pathname` and return
the id. -/
def uniqueId (id url : String) (ids : List (String × String)) :
    Except String (String × List (String × String)) :=
  let pathname := pathnameOf url
  if id.data.contains '@' then
    Except.error ("id \"" ++ id ++ "\" cannot contain \"@\" character")
  else
    let key := id ++ "@" ++ pathname
    match idsGet ids id with
    | some ex =>
        if ex ≠ key then
          Except.error ("Duplicate id \"" ++ ex ++ "\" found in \"" ++ key ++ "\"")
        else
          Except.ok (id, idsSet ids id key)
    | none => Except.ok (id, idsSet ids id key)

/-! ## Per-subscriber dispatch of `notifySubscribers` (lines 165-178) -/

/-- A registered subscriber: an optional filter and a callback, each of
which may throw. -/
structure Subscriber (σ : Type) where
  filter : Option (RefVal σ → RefVal σ → List ActionType → Except String Bool)
  callback : RefVal σ → RefVal σ → List ActionType → Except String Unit

/-- The observable outcome of one iteration of the subscriber loop.
`fired th` means the callback was invoked (`th` records whether it threw,
in which case the error was caught and reported); `filteredOut` means the
filter returned false; `filterErrored` means the filter threw, so the
callback was not invoked and the error was caught and reported.  In every
case the loop continues with the next subscriber and nothing propagates to
the action's caller. -/
inductive Outcome where
  | fired : Bool → Outcome
  | filteredOut : Outcome
  | filterErrored : Outcome
deriving DecidableEq

def Outcome.isFired : Outcome → Bool
  | Outcome.fired _ => true
  | _ => false

/-- The `try`-block body for a single subscriber: run the filter if present,
then the callback; any throw is caught. -/
def notifyOne (sub : Subscriber σ) (p n : RefVal σ) (a : List ActionType) : Outcome :=
  match sub.filter with
  | none =>
      match sub.callback p n a with
      | Except.ok _ => Outcome.fired false
      | Except.error _ => Outcome.fired true
  | some f =>
      match f p n a with
      | Except.error _ => Outcome.filterErrored
      | Except.ok false => Outcome.filteredOut
      | Except.ok true =>
          match sub.callback p n a with
          | Except.ok _ => Outcome.fired false
          | Except.error _ => Outcome.fired true

/-- `subscribers.forEach` with its per-subscriber `try`/`catch`: a caught
error never stops the loop. -/
def notifyAll : List (Subscriber σ) → RefVal σ → RefVal σ → List ActionType → List Outcome
  | [], _, _, _ => []
  | sub :: rest, p, n, a => notifyOne sub p n a :: notifyAll rest p n a

/-- `notifySubscribers(prevState, nextState, actions)` at subscriber level:
the `prevState === nextState` gate followed by the dispatch loop. -/
def notifySubscribers (subs : List (Subscriber σ)) (p n : RefVal σ)
    (a : List ActionType) : List Outcome :=
  if p.addr = n.addr then [] else notifyAll subs p n a

/-- Whether a subscriber's filter lets the notification through: no filter,
or the filter returns `true` without throwing. -/
def passes (sub : Subscriber σ) (p n : RefVal σ) (a : List ActionType) : Prop :=
  match sub.filter with
  | none => True
  | some f => f p n a = Except.ok true

/-- Concrete subscriber set: an unfiltered subscriber, a filtered one, one
whose filter throws and one whose callback throws. -/
def c8subs : List (Subscriber Nat) :=
  [ ⟨none, fun _ _ _ => Except.ok ()⟩,
    ⟨some (fun prev next _ => Except.ok (decide (prev.val ≠ next.val))),
      fun _ _ _ => Except.ok ()⟩,
    ⟨some (fun _ _ _ => Except.error "Filter error"), fun _ _ _ => Except.ok ()⟩,
    ⟨none, fun _ _ _ => Except.error "Subscriber error"⟩ ]

/-! ## The `History` overlay (`history.ts`) -/

/-- A history entry: state snapshot, causing actions, timestamp, optional
label. -/
structure HistoryEntry (σ : Type) where
  state : RefVal σ
  actions : List ActionType
  timestamp : Nat
  label : Option String
deriving DecidableEq

/-- `HistoryOptions`: all fields optional, defaults applied on
construction (`maxHistorySize` 50, `autoCapture` true, `shouldCapture`
always true). -/
structure HistoryOptions where
  maxHistorySize : Option Nat
  autoCapture : Option Bool
  shouldCaptureOpt : Option (List ActionType → Bool)

/-- The private fields of a `History` instance.  `subscribed` models
whether the `unsubscribe` handle is set (auto-capture active).  The
`isApplyingHistory` re-entrancy guard is implicit: restore operations
initiated by the overlay itself never call `captureState`. -/
structure HistoryState (σ : Type) where
  maxHistorySize : Nat
  shouldCapture : List ActionType → Bool
  initialState : RefVal σ
  entries : List (HistoryEntry σ)
  currentIndex : Int
  subscribed : Bool

/-- A store together with a `History` overlay observing it. -/
structure Sys (σ : Type) where
  store : Store σ
  hist : HistoryState σ

/-- JS array indexing `entries[i]`: `undefined` for negative or
out-of-range indices. -/
def getAtInt (l : List α) (i : Int) : Option α :=
  if i < 0 then none else l.get? i.toNat

/-- `captureInitialState()` (history.ts lines 239-252): push the entry
holding the recorded initial state and set the cursor to 0. -/
def Sys.captureInitialState (sys : Sys σ) : Sys σ :=
  let entry : HistoryEntry σ :=
    { state := sys.hist.initialState, actions := [], timestamp := sys.store.clock,
      label := some "HISTORY_INITIAL_STATE" }
  { sys with hist := { sys.hist with
      entries := sys.hist.entries ++ [entry],
      currentIndex := 0 } }

/-- The `History` constructor: resolve options, record the store's current
snapshot as the permanent initial state, seed the log, and subscribe when
auto-capture is enabled. -/
def mkSys (store : Store σ) (opts : HistoryOptions) : Sys σ :=
  let hist : HistoryState σ :=
    { maxHistorySize := opts.maxHistorySize.getD 50,
      shouldCapture := opts.shouldCaptureOpt.getD (fun _ => true),
      initialState := store.getSnapshot,
      entries := [], currentIndex := -1, subscribed := false }
  let sys := Sys.captureInitialState { store := store, hist := hist }
  if opts.autoCapture.getD true then
    { sys with hist := { sys.hist with subscribed := true } }
  else sys

def Sys.canUndo (sys : Sys σ) : Bool := decide (0 < sys.hist.currentIndex)

def Sys.canRedo (sys : Sys σ) : Bool :=
  decide (sys.hist.currentIndex < (sys.hist.entries.length : Int) - 1)

/-- `applyHistoryEntry`: restore through the store; the
`isApplyingHistory` guard keeps the overlay from capturing the
notification this produces. -/
def Sys.applyHistoryEntry (e : HistoryEntry σ) (sys : Sys σ) : Sys σ :=
  { sys with store := Store.restoreFromHistory e.state sys.store }

/-- `undo()` (history.ts lines 102-113). -/
def Sys.undo (sys : Sys σ) : Bool × Sys σ :=
  if sys.canUndo then
    let i := sys.hist.currentIndex - 1
    let sys1 := { sys with hist := { sys.hist with currentIndex := i } }
    match getAtInt sys1.hist.entries i with
    | some e => (true, Sys.applyHistoryEntry e sys1)
    | none => (true, sys1)
  else (false, sys)

/-- `redo()` (history.ts lines 119-130). -/
def Sys.redo (sys : Sys σ) : Bool × Sys σ :=
  if sys.canRedo then
    let i := sys.hist.currentIndex + 1
    let sys1 := { sys with hist := { sys.hist with currentIndex := i } }
    match getAtInt sys1.hist.entries i with
    | some e => (true, Sys.applyHistoryEntry e sys1)
    | none => (true, sys1)
  else (false, sys)

def Sys.getHistory (sys : Sys σ) : List (HistoryEntry σ) := sys.hist.entries

def Sys.getCurrentIndex (sys : Sys σ) : Int := sys.hist.currentIndex

def Sys.getInitialState (sys : Sys σ) : RefVal σ := sys.hist.initialState

/-- `captureState(actions, label?)` (history.ts lines 254-280): truncate
any abandoned redo branch, push the new entry, move the cursor to the end,
then enforce `maxHistorySize` by trimming the oldest entries and shifting
the cursor down by the trimmed count. -/
def Sys.captureState (actions : List ActionType) (label : Option String)
    (sys : Sys σ) : Sys σ :=
  let entry : HistoryEntry σ :=
    { state := sys.store.getSnapshot, actions := actions,
      timestamp := sys.store.clock, label := label }
  let entries0 :=
    if sys.hist.currentIndex < (sys.hist.entries.length : Int) - 1 then
      sys.hist.entries.take (sys.hist.currentIndex + 1).toNat
    else sys.hist.entries
  let entries1 := entries0 ++ [entry]
  let ci : Int := (entries1.length : Int) - 1
  if entries1.length > sys.hist.maxHistorySize then
    let excess := entries1.length - sys.hist.maxHistorySize
    { sys with hist := { sys.hist with
        entries := entries1.drop excess, currentIndex := ci - excess } }
  else
    { sys with hist := { sys.hist with entries := entries1, currentIndex := ci } }

/-- `capture(label?)`. -/
def Sys.capture (label : Option String) (sys : Sys σ) : Sys σ :=
  Sys.captureState [] label sys

/-- `clear()` (history.ts lines 163-175): discard the log, restore the
recorded initial state through the store, and reseed the log. -/
def Sys.clear (sys : Sys σ) : Sys σ :=
  let sys1 := { sys with hist := { sys.hist with entries := [], currentIndex := -1 } }
  let sys2 := { sys1 with store := Store.restoreFromHistory sys1.hist.initialState sys1.store }
  Sys.captureInitialState sys2

/-- `jumpTo(index)` (history.ts lines 182-193). -/
def Sys.jumpTo (index : Int) (sys : Sys σ) : Bool × Sys σ :=
  if index < 0 ∨ (sys.hist.entries.length : Int) ≤ index then (false, sys)
  else
    let sys1 := { sys with hist := { sys.hist with currentIndex := index } }
    match getAtInt sys1.hist.entries index with
    | some e => (true, Sys.applyHistoryEntry e sys1)
    | none => (true, sys1)

/-- `startAutoCapture()`: no-op when already subscribed. -/
def Sys.startAutoCapture (sys : Sys σ) : Sys σ :=
  if sys.hist.subscribed then sys
  else { sys with hist := { sys.hist with subscribed := true } }

/-- `stopAutoCapture()`: no-op when not subscribed. -/
def Sys.stopAutoCapture (sys : Sys σ) : Sys σ :=
  if sys.hist.subscribed then { sys with hist := { sys.hist with subscribed := false } }
  else sys

/-- `dispose()` (history.ts lines 233-237). -/
def Sys.dispose (sys : Sys σ) : Sys σ :=
  let sys1 := Sys.stopAutoCapture sys
  { sys1 with hist := { sys1.hist with entries := [], currentIndex := -1 } }

/-- Invoking a root action on the store while the overlay is attached: the
overlay's subscription callback captures each delivered notification that
passes `shouldCapture`, unless auto-capture is off. -/
def Sys.runRootAction (t : String) (p : Payload) (b : Body σ) (sys : Sys σ) :
    Except String Unit × Sys σ :=
  let old := sys.store.notifications.length
  let res := runAction t p b sys.store
  let sys1 : Sys σ := { sys with store := res.2 }
  let newNotes := res.2.notifications.drop old
  (res.1,
   newNotes.foldl
     (fun acc note =>
       if acc.hist.subscribed && acc.hist.shouldCapture note.actions then
         Sys.captureState note.actions none acc
       else acc) sys1)

/-- One overlay or store operation, for quantifying over arbitrary
interaction sequences. -/
inductive HOp (σ : Type) where
  | capture : Option String → HOp σ
  | undo : HOp σ
  | redo : HOp σ
  | jumpTo : Int → HOp σ
  | clear : HOp σ
  | dispose : HOp σ
  | startAuto : HOp σ
  | stopAuto : HOp σ
  | act : String → Payload → Body σ → HOp σ

def applyOp : HOp σ → Sys σ → Sys σ
  | HOp.capture l, sys => Sys.capture l sys
  | HOp.undo, sys => (Sys.undo sys).2
  | HOp.redo, sys => (Sys.redo sys).2
  | HOp.jumpTo i, sys => (Sys.jumpTo i sys).2
  | HOp.clear, sys => Sys.clear sys
  | HOp.dispose, sys => Sys.dispose sys
  | HOp.startAuto, sys => Sys.startAutoCapture sys
  | HOp.stopAuto, sys => Sys.stopAutoCapture sys
  | HOp.act t p b, sys => (Sys.runRootAction t p b sys).2

def applyOps (ops : List (HOp σ)) (sys : Sys σ) : Sys σ :=
  ops.foldl (fun s op => applyOp op s) sys

/-- Operations that leave a disposed overlay's log untouched: everything
except `capture`, `clear` and `startAutoCapture`. -/
def InertOp : HOp σ → Prop
  | HOp.capture _ => False
  | HOp.clear => False
  | HOp.startAuto => False
  | _ => True

/-- Iterated `undo()`. -/
def undoN : Nat → Sys σ → Sys σ
  | 0, sys => sys
  | n + 1, sys => undoN n (Sys.undo sys).2

/-- `SuccSteps sys n sys'`: from `sys`, a sequence of `n` top-level store
actions each of which succeeds and changes the state reference, ending at
`sys'`. -/
inductive SuccSteps : Sys σ → Nat → Sys σ → Prop where
  | nil (sys : Sys σ) : SuccSteps sys 0 sys
  | cons {sys sys' : Sys σ} {n : Nat} (t : String) (p : Payload) (b : Body σ)
      (hprev : SuccSteps sys n sys')
      (hok : (Sys.runRootAction t p b sys').1 = Except.ok ())
      (hchg : (Sys.runRootAction t p b sys').2.store.state.addr ≠ sys'.store.state.addr) :
      SuccSteps sys (n + 1) (Sys.runRootAction t p b sys').2

/-- `new History(store)` with all defaults. -/
def defaultOptions : HistoryOptions := ⟨none, none, none⟩

/-- The `{ count: 0 }` store with a default `History` overlay attached. -/
def natSys : Sys Nat := mkSys natStore defaultOptions

/-- Invariant of a default-options overlay after `n` captured state
changes: idle store, auto-capture on, default limit and predicate, `n + 1`
entries, cursor at the end, and the initial entry still first. -/
def C5Inv (init : RefVal σ) (n : Nat) (sys : Sys σ) : Prop :=
  sys.store.Idle
  ∧ sys.hist.subscribed = true
  ∧ sys.hist.maxHistorySize = 50
  ∧ (∀ a, sys.hist.shouldCapture a = true)
  ∧ sys.hist.initialState = init
  ∧ sys.hist.entries.length = n + 1
  ∧ sys.hist.currentIndex = (n : Int)
  ∧ sys.hist.entries.head?.map (fun e => e.state) = some init

/-- One `increment(1)` root action on the concrete system. -/
def c5step (sys : Sys Nat) : Sys Nat :=
  (Sys.runRootAction "INCREMENT" Payload.empty (incBody 1) sys).2

/-- `n` consecutive `increment(1)` root actions from the fresh system. -/
def c5run : Nat → Sys Nat
  | 0 => natSys
  | n + 1 => c5step (c5run n)

/-- Checks that every one of the first `n` steps succeeded and changed the
state reference. -/
def c5okAll : Nat → Bool
  | 0 => true
  | n + 1 =>
      c5okAll n &&
      (match (Sys.runRootAction "INCREMENT" Payload.empty (incBody 1) (c5run n)).1 with
       | Except.ok _ => true
       | Except.error _ => false) &&
      decide ((Sys.runRootAction "INCREMENT" Payload.empty (incBody 1) (c5run n)).2.store.state.addr
        ≠ (c5run n).store.state.addr)

/-! ## The flush extension, modelled from the spec

`flush()` and the `flushedState` field are referenced by the repository's
tests (`base-store.test.ts`, `Flush Mechanism` suite) but the method is not
present in `src/packages/state/src/base-store.ts`; the definitions in this
section model the missing code from the specification's description of
`flush()`. -/

/-- Modelled from the spec: the store of the flush-capable `BaseStore` —
the `src` store extended with the `flushedState` bookkeeping field ("the
state at the moment of that flush"), absent from `src`. -/
structure FStore (σ : Type) where
  toStore : Store σ
  flushedState : Option (RefVal σ)
deriving DecidableEq

/-- Modelled from the spec: action bodies that may additionally call
`flush()` mid-batch. -/
inductive FBody (σ : Type) where
  | fskip : FBody σ
  | fassign : (σ → σ) → FBody σ
  | fseq : FBody σ → FBody σ → FBody σ
  | fcall : String → Payload → FBody σ → FBody σ
  | fthrow : String → FBody σ
  | fabort : FBody σ
  | fflush : FBody σ

/-- Embedding of flush-free (`src`) bodies into flush-capable bodies. -/
def liftB : Body σ → FBody σ
  | Body.skip => FBody.fskip
  | Body.assign f => FBody.fassign f
  | Body.seq a b => FBody.fseq (liftB a) (liftB b)
  | Body.call t p b => FBody.fcall t p (liftB b)
  | Body.throwErr m => FBody.fthrow m
  | Body.abortCall => FBody.fabort

/-- The action prologue on the flush-capable store: identical to
`beginAction`, never touching `flushedState`. -/
def fbeginAction (t : String) (p : Payload) (fs : FStore σ) : FStore σ :=
  { fs with toStore := beginAction t p fs.toStore }

/-- Modelled from the spec: the action epilogue of the flush-capable store.
As in `settleAction`, but the batch-completion notification's previous
state is the most recently flushed state when a flush happened
("each notification's previous state is the most recently flushed (or
batch-start) state"), an error still rolls back all the way to the
original pre-batch checkpoint, and the cleanup also resets
`flushedState`. -/
def fsettleAction (r0 : Except String Unit) (fs : FStore σ) :
    Except String Unit × FStore σ :=
  let s2 := fs.toStore
  let r : Except String Unit :=
    match r0 with
    | Except.ok _ =>
        if s2.abortSignal = some true then Except.error "Action aborted" else Except.ok ()
    | Except.error e => Except.error e
  let s3 := { s2 with batchCount := s2.batchCount - 1 }
  if s3.batchCount = 0 then
    match s3.initialState with
    | some init =>
      match r with
      | Except.error e => (Except.error e, ⟨clearBatch { s3 with state := init }, none⟩)
      | Except.ok _ =>
          (Except.ok (),
           ⟨clearBatch
              (notifyGate (fs.flushedState.getD init) s3.state (s3.batchedActions.getD []) s3),
            none⟩)
    | none => (r, { fs with toStore := s3 })
  else (r, { fs with toStore := s3 })

/-- Modelled from the spec: `flush()`.  Outside a batch it throws; with
nothing new to report since the previous flush (or batch start) it is a
silent no-op; otherwise it notifies subscribers with (state at last flush
or batch start, current state, the accumulated log), collapses the log
into a single synthetic `FLUSH` record carrying the ordered flushed action
type names and a flush timestamp, and records the current state as the new
flush checkpoint. -/
def fflushStep (fs : FStore σ) : Except String Unit × FStore σ :=
  let s := fs.toStore
  if s.batchCount = 0 then (Except.error "Cannot flush outside of an action batch", fs)
  else
    let pending := s.batchedActions.getD []
    let since := if fs.flushedState.isSome then pending.drop 1 else pending
    if since.isEmpty then (Except.ok (), fs)
    else
      let prev := fs.flushedState.getD (s.initialState.getD s.state)
      let s1 := notifyGate prev s.state pending s
      let marker : ActionType := ⟨"FLUSH", Payload.flushMeta (pending.map (fun a => a.type)) s1.clock⟩
      (Except.ok (),
       ⟨{ s1 with batchedActions := some [marker], clock := s1.clock + 1 }, some s1.state⟩)

/-- Modelled from the spec: the interpreter for flush-capable bodies;
identical to `runBody` except for the `fflush` case and the
flush-aware epilogue. -/
def runF : FBody σ → FStore σ → Except String Unit × FStore σ
  | FBody.fskip, fs => (Except.ok (), fs)
  | FBody.fassign f, fs =>
      (Except.ok (),
       { fs with toStore :=
          { fs.toStore with
            state := ⟨fs.toStore.nextAddr, f fs.toStore.state.val⟩,
            nextAddr := fs.toStore.nextAddr + 1 } })
  | FBody.fseq a b, fs =>
      match runF a fs with
      | (Except.ok _, fs1) => runF b fs1
      | (Except.error e, fs1) => (Except.error e, fs1)
  | FBody.fthrow m, fs => (Except.error m, fs)
  | FBody.fabort, fs =>
      match fs.toStore.abortSignal with
      | some _ => (Except.ok (), { fs with toStore := { fs.toStore with abortSignal := some true } })
      | none => (Except.error "No action is currently running to abort", fs)
  | FBody.fflush, fs => fflushStep fs
  | FBody.fcall t p b, fs =>
      match runF b (fbeginAction t p fs) with
      | (r0, fs2) => fsettleAction r0 fs2

/-- A flush-capable store with no batch in flight. -/
def FStore.FIdle (fs : FStore σ) : Prop :=
  fs.toStore.Idle ∧ fs.flushedState = none

/-- The root scenario of a single mid-batch flush: a root action whose body
runs `b1`, calls `flush()`, then runs `b2`. -/
def flushOnce (t : String) (p : Payload) (b1 b2 : Body σ) : FBody σ :=
  FBody.fcall t p (FBody.fseq (liftB b1) (FBody.fseq FBody.fflush (liftB b2)))

/-- The flush-capable `{ count: 0 }` store. -/
def natFStore : FStore Nat := ⟨natStore, none⟩

/-- The store state after the root prologue and `b1`, in the
single-mid-batch-flush scenario. -/
def c3afterB1 (t : String) (p : Payload) (b1 : Body σ) (fs : FStore σ) : FStore σ :=
  (runF (liftB b1) (fbeginAction t p fs)).2

/-- The store state after the mid-batch `flush()`. -/
def c3afterFlush (t : String) (p : Payload) (b1 : Body σ) (fs : FStore σ) : FStore σ :=
  (fflushStep (c3afterB1 t p b1 fs)).2

/-- The store state after `b2`, just before the batch epilogue. -/
def c3afterB2 (t : String) (p : Payload) (b1 b2 : Body σ) (fs : FStore σ) : FStore σ :=
  (runF (liftB b2) (c3afterFlush t p b1 fs)).2

/-- Concrete first half: `increment(2)` then `increment(3)`. -/
def c3b1 : Body Nat := Body.seq (Body.call "INCREMENT" Payload.empty (incBody 2))
  (Body.call "INCREMENT" Payload.empty (incBody 3))

/-- Concrete second half: one more nested action after the flush. -/
def c3b2 : Body Nat := Body.call "SET_VALUE" Payload.empty (Body.assign (fun _ => 42))

/-! ## Lemmas about the action machinery -/

theorem beginAction_not_root (t : String) (p : Payload) (s : Store σ)
    (h : s.batchCount ≠ 0) :
    beginAction t p s =
      { s with
        abortSignal := some (s.abortSignal.getD false),
        batchedActions := some (s.batchedActions.getD [] ++ [⟨t, p⟩]),
        batchCount := s.batchCount + 1 } := by
  unfold beginAction
  rw [if_neg (by simpa using h)]

theorem beginAction_root (t : String) (p : Payload) (s : Store σ)
    (h : s.batchCount = 0) :
    beginAction t p s =
      { s with
        initialState := some s.state,
        abortSignal := some (s.abortSignal.getD false),
        batchedActions := some (s.batchedActions.getD [] ++ [⟨t, p⟩]),
        batchCount := s.batchCount + 1 } := by
  unfold beginAction
  rw [if_pos (by simpa using h)]

theorem settleAction_nested (r0 : Except String Unit) (s2 : Store σ)
    (h : 2 ≤ s2.batchCount) :
    settleAction r0 s2 =
      ((match r0 with
        | Except.ok _ =>
            if s2.abortSignal = some true then Except.error "Action aborted" else Except.ok ()
        | Except.error e => Except.error e),
       { s2 with batchCount := s2.batchCount - 1 }) := by
  unfold settleAction
  rw [if_neg (by simp; omega)]

/-- While a batch is in flight (`batchCount ≥ 1`), running any body keeps
the nesting count, the checkpoint and the delivered notifications
unchanged, and on success appends exactly the body's action records to the
batched log.  Nested `action` calls never reach the root cleanup. -/
theorem runBody_nested (b : Body σ) : ∀ (s : Store σ), 1 ≤ s.batchCount →
      (runBody b s).2.batchCount = s.batchCount
    ∧ (runBody b s).2.initialState = s.initialState
    ∧ (runBody b s).2.notifications = s.notifications
    ∧ ∀ l, s.batchedActions = some l → (runBody b s).1 = Except.ok () →
        (runBody b s).2.batchedActions = some (l ++ trace b) := by
  induction b with
  | skip => intro s h; simp [runBody, trace]
  | assign f => intro s h; simp [runBody, trace]
  | throwErr m => intro s h; simp [runBody, trace]
  | abortCall =>
      intro s h
      cases hsig : s.abortSignal <;> simp [runBody, hsig, trace]
  | seq a b iha ihb =>
      intro s h
      obtain ⟨ha1, ha2, ha3, ha4⟩ := iha s h
      simp only [runBody]
      cases hra : runBody a s with
      | mk r1 s1 =>
        rw [hra] at ha1 ha2 ha3 ha4
        dsimp only at ha1 ha2 ha3 ha4
        cases r1 with
        | error e =>
            refine ⟨ha1, ha2, ha3, ?_⟩
            intro l hl hok
            exact absurd hok (by simp)
        | ok u =>
          cases u
          obtain ⟨hb1, hb2, hb3, hb4⟩ := ihb s1 (by omega)
          refine ⟨by rw [hb1, ha1], by rw [hb2, ha2], by rw [hb3, ha3], ?_⟩
          intro l hl hok
          have hs1 : s1.batchedActions = some (l ++ trace a) := ha4 l hl rfl
          have h6 := hb4 (l ++ trace a) hs1 hok
          simp only [trace, List.append_assoc] at h6 ⊢
          exact h6
  | call t p b ih =>
      intro s h
      have hb : beginAction t p s =
          { s with
            abortSignal := some (s.abortSignal.getD false),
            batchedActions := some (s.batchedActions.getD [] ++ [⟨t, p⟩]),
            batchCount := s.batchCount + 1 } :=
        beginAction_not_root t p s (by omega)
      have hbc : (beginAction t p s).batchCount = s.batchCount + 1 := by rw [hb]
      have hbi : (beginAction t p s).initialState = s.initialState := by rw [hb]
      have hbn : (beginAction t p s).notifications = s.notifications := by rw [hb]
      have hba : (beginAction t p s).batchedActions =
          some (s.batchedActions.getD [] ++ [⟨t, p⟩]) := by rw [hb]
      simp only [runBody]
      cases hrb : runBody b (beginAction t p s) with
      | mk r0 s2 =>
        dsimp only
        obtain ⟨h1, h2, h3, h4⟩ := ih (beginAction t p s) (by omega)
        rw [hrb] at h1 h2 h3 h4
        dsimp only at h1 h2 h3 h4
        rw [hbc] at h1
        rw [hbi] at h2
        rw [hbn] at h3
        have hset := settleAction_nested r0 s2 (by omega)
        rw [hset]
        dsimp only
        refine ⟨by omega, h2, h3, ?_⟩
        intro l hl hok
        cases r0 with
        | error e => exact absurd hok (by simp)
        | ok u =>
          cases u
          have hba2 : (beginAction t p s).batchedActions = some (l ++ [⟨t, p⟩]) := by
            rw [hba, hl, Option.getD_some]
          have h5 := h4 (l ++ [⟨t, p⟩]) hba2 rfl
          simp only [trace, List.append_assoc, List.singleton_append] at h5 ⊢
          exact h5

theorem settleAction_root (r0 : Except String Unit) (s2 : Store σ) (init : RefVal σ)
    (h : s2.batchCount = 1) (hinit : s2.initialState = some init) :
    settleAction r0 s2 =
      (match r0 with
       | Except.error e => (Except.error e, clearBatch { s2 with batchCount := 0, state := init })
       | Except.ok _ =>
           if s2.abortSignal = some true then
             (Except.error "Action aborted",
              clearBatch { s2 with batchCount := 0, state := init })
           else
             (Except.ok (),
              clearBatch
                (notifyGate init s2.state (s2.batchedActions.getD []) { s2 with batchCount := 0 }))) := by
  cases r0 with
  | error e => simp [settleAction, h, hinit]
  | ok u =>
      cases u
      by_cases hab : s2.abortSignal = some true
      · simp [settleAction, h, hinit, hab]
      · simp [settleAction, h, hinit, hab]

/-- Master description of a root `action` invocation from an idle store:
on a body error, rollback to the pre-call state; on success with the abort
signal fired, an `Action aborted` error with the same rollback; on clean
success, a single gated notification carrying the checkpoint, the final
state and the full action log (root record first). -/
theorem runAction_eq (t : String) (p : Payload) (b : Body σ) (s : Store σ) (hid : s.Idle) :
    runAction t p b s =
      (match runBody b (beginAction t p s) with
       | (Except.error e, s2) =>
           (Except.error e, clearBatch { s2 with batchCount := 0, state := s.state })
       | (Except.ok _, s2) =>
           if s2.abortSignal = some true then
             (Except.error "Action aborted",
              clearBatch { s2 with batchCount := 0, state := s.state })
           else
             (Except.ok (),
              clearBatch
                (notifyGate s.state s2.state (⟨t, p⟩ :: trace b) { s2 with batchCount := 0 }))) := by
  obtain ⟨hc, hban, hin, hsig⟩ := hid
  have hb := beginAction_root t p s hc
  have hbc : (beginAction t p s).batchCount = 1 := by rw [hb, hc]
  have hbi : (beginAction t p s).initialState = some s.state := by rw [hb]
  have hba2 : (beginAction t p s).batchedActions = some [⟨t, p⟩] := by
    rw [hb]; simp [hban]
  obtain ⟨h1, h2, h3, h4⟩ := runBody_nested b (beginAction t p s) (by omega)
  simp only [runAction, runBody]
  cases hrb : runBody b (beginAction t p s) with
  | mk r0 s2 =>
    dsimp only
    rw [hrb] at h1 h2 h3 h4
    dsimp only at h1 h2 h3 h4
    rw [hbc] at h1
    rw [hbi] at h2
    rw [settleAction_root r0 s2 s.state h1 h2]
    cases r0 with
    | error e => rfl
    | ok u =>
      cases u
      have hga := h4 [⟨t, p⟩] hba2 rfl
      by_cases hab : s2.abortSignal = some true
      · simp [hab]
      · simp [hab, hga]

theorem GateOK.of_eq {s s' : Store σ} (h : s'.notifications = s.notifications)
    (hg : GateOK s) : GateOK s' := by
  intro n hn
  exact hg n (h ▸ hn)

theorem beginAction_notifications (t : String) (p : Payload) (s : Store σ) :
    (beginAction t p s).notifications = s.notifications := by
  unfold beginAction
  split <;> rfl

theorem notifyGate_gate (prev next : RefVal σ) (a : List ActionType) (s : Store σ)
    (h : GateOK s) : GateOK (notifyGate prev next a s) := by
  intro n hn
  unfold notifyGate at hn
  split at hn
  · exact h n hn
  · rename_i hne
    dsimp only at hn
    rcases List.mem_append.1 hn with h1 | h2
    · exact h n h1
    · simp only [List.mem_singleton] at h2
      rw [h2]
      exact hne

theorem settleAction_gate (r0 : Except String Unit) (s2 : Store σ) (h : GateOK s2) :
    GateOK (settleAction r0 s2).2 := by
  unfold settleAction
  dsimp only
  split
  · split
    · split
      · exact GateOK.of_eq rfl h
      · exact GateOK.of_eq rfl (notifyGate_gate _ _ _ _ (GateOK.of_eq rfl h))
    · exact GateOK.of_eq rfl h
  · exact GateOK.of_eq rfl h

/-- Running any body preserves the notification gate invariant: every
delivered notification has reference-distinct previous and next states. -/
theorem runBody_gate (b : Body σ) : ∀ s : Store σ, GateOK s → GateOK (runBody b s).2 := by
  induction b with
  | skip => intro s h; exact h
  | assign f => intro s h; exact GateOK.of_eq rfl h
  | throwErr m => intro s h; exact h
  | abortCall =>
      intro s h
      simp only [runBody]
      cases s.abortSignal
      · exact h
      · exact GateOK.of_eq rfl h
  | seq a b iha ihb =>
      intro s h
      simp only [runBody]
      cases hra : runBody a s with
      | mk r1 s1 =>
        have h1 : GateOK s1 := by
          have := iha s h
          rw [hra] at this
          exact this
        cases r1 with
        | error e => exact h1
        | ok u => exact ihb s1 h1
  | call t p b ih =>
      intro s h
      simp only [runBody]
      cases hrb : runBody b (beginAction t p s) with
      | mk r0 s2 =>
        dsimp only
        have hg2 : GateOK s2 := by
          have := ih (beginAction t p s)
            (GateOK.of_eq (beginAction_notifications t p s) h)
          rw [hrb] at this
          exact this
        exact settleAction_gate r0 s2 hg2

theorem restoreFromHistory_gate (x : RefVal σ) (s : Store σ) (h : GateOK s) :
    GateOK (Store.restoreFromHistory x s) :=
  notifyGate_gate s.state x _ _ (GateOK.of_eq rfl h)

theorem beginAction_batchCount (t : String) (p : Payload) (s : Store σ) :
    (beginAction t p s).batchCount = s.batchCount + 1 := by
  unfold beginAction
  split <;> rfl

/-- Once the abort signal has fired it stays fired for the rest of the
batch: no nested construct resets the controller below the root level. -/
theorem runBody_abort_mono (b : Body σ) : ∀ s : Store σ, 1 ≤ s.batchCount →
    s.abortSignal = some true → (runBody b s).2.abortSignal = some true := by
  induction b with
  | skip => intro s h hsig; exact hsig
  | assign f => intro s h hsig; exact hsig
  | throwErr m => intro s h hsig; exact hsig
  | abortCall =>
      intro s h hsig
      simp only [runBody, hsig]
  | seq a b iha ihb =>
      intro s h hsig
      simp only [runBody]
      cases hra : runBody a s with
      | mk r1 s1 =>
        have hs1 : s1.abortSignal = some true := by
          have := iha s h hsig
          rw [hra] at this
          exact this
        have hc1 : s1.batchCount = s.batchCount := by
          have := (runBody_nested a s h).1
          rw [hra] at this
          exact this
        cases r1 with
        | error e => exact hs1
        | ok u => exact ihb s1 (by omega) hs1
  | call t p b ih =>
      intro s h hsig
      simp only [runBody]
      cases hrb : runBody b (beginAction t p s) with
      | mk r0 s2 =>
        dsimp only
        have hbsig : (beginAction t p s).abortSignal = some true := by
          unfold beginAction
          split <;> simp [hsig]
        have hs2 : s2.abortSignal = some true := by
          have := ih (beginAction t p s) (by rw [beginAction_batchCount]; omega) hbsig
          rw [hrb] at this
          exact this
        have hc2 : s2.batchCount = s.batchCount + 1 := by
          have := (runBody_nested b (beginAction t p s)
            (by rw [beginAction_batchCount]; omega)).1
          rw [hrb] at this
          rw [beginAction_batchCount] at this
          exact this
        rw [settleAction_nested r0 s2 (by omega)]
        exact hs2

/-! ## Claim theorems -/

/-- C1: for every root action invocation in which any action body (at any
nesting depth of the batch) throws, after the root call rejects the store's
state is reference-identical to the state before the call and no subscriber
notification is delivered for the batch; the body's error becomes the root
result, and a nested `action` call re-throws its body's error to its
caller. -/
theorem c1_action_failure_atomic (t : String) (p : Payload) (b : Body σ) (s : Store σ)
    (hid : s.Idle) :
    (∀ e, (runAction t p b s).1 = Except.error e →
        (runAction t p b s).2.state = s.state
      ∧ (runAction t p b s).2.notifications = s.notifications)
  ∧ (∀ e, (runBody b (beginAction t p s)).1 = Except.error e →
      (runAction t p b s).1 = Except.error e)
  ∧ (∀ (t2 : String) (p2 : Payload) (b2 : Body σ) (s2 : Store σ) (e : String),
      1 ≤ s2.batchCount →
      (runBody b2 (beginAction t2 p2 s2)).1 = Except.error e →
      (runBody (Body.call t2 p2 b2) s2).1 = Except.error e) := by
  have heq := runAction_eq t p b s hid
  have hnotif : (runBody b (beginAction t p s)).2.notifications = s.notifications := by
    rw [(runBody_nested b (beginAction t p s) (by rw [beginAction_batchCount]; omega)).2.2.1,
      beginAction_notifications]
  refine ⟨?_, ?_, ?_⟩
  · intro e herr
    rw [heq] at herr ⊢
    cases hrb : runBody b (beginAction t p s) with
    | mk r0 s2 =>
      rw [hrb] at herr
      have hn2 : s2.notifications = s.notifications := by
        rw [hrb] at hnotif
        exact hnotif
      cases r0 with
      | error e2 => exact ⟨rfl, hn2⟩
      | ok u =>
        cases u
        dsimp only at herr ⊢
        by_cases hab : s2.abortSignal = some true
        · rw [if_pos hab]
          exact ⟨rfl, hn2⟩
        · rw [if_neg hab] at herr
          exact absurd herr (by simp)
  · intro e herr
    rw [heq]
    cases hrb : runBody b (beginAction t p s) with
    | mk r0 s2 =>
      rw [hrb] at herr
      dsimp only at herr
      rw [herr]
  · intro t2 p2 b2 s2 e h1 herr
    simp only [runBody]
    cases hrb : runBody b2 (beginAction t2 p2 s2) with
    | mk r0 s3 =>
      dsimp only
      rw [hrb] at herr
      dsimp only at herr
      have hc : s3.batchCount = s2.batchCount + 1 := by
        have := (runBody_nested b2 (beginAction t2 p2 s2)
          (by rw [beginAction_batchCount]; omega)).1
        rw [hrb, beginAction_batchCount] at this
        exact this
      rw [settleAction_nested r0 s3 (by omega), herr]

/-- C1 witness: a concrete throwing action on the `{ count: 0 }` store. -/
theorem c1_witness :
    (runAction "THROW_ERROR" Payload.empty (Body.throwErr "Test error") natStore).2.state
      = natStore.state
  ∧ (runAction "THROW_ERROR" Payload.empty (Body.throwErr "Test error") natStore).2.notifications
      = natStore.notifications := by
  have h := c1_action_failure_atomic "THROW_ERROR" Payload.empty
    (Body.throwErr "Test error") natStore ⟨rfl, rfl, rfl, rfl⟩
  exact h.1 "Test error" rfl

/-- C2 counterexample: a top-level action in which all nested actions
succeed (there are none) and no abort occurs, but whose body leaves the
state reference untouched, delivers zero subscriber notifications — not
exactly one as claimed.  This mirrors the repository's own test
`should not call subscribers when state does not change`. -/
theorem c2_counterexample :
    (runAction "NO_CHANGE" Payload.empty Body.skip natStore).1 = Except.ok ()
  ∧ (runAction "NO_CHANGE" Payload.empty Body.skip natStore).2.notifications = [] := by
  exact ⟨rfl, rfl⟩

/-- C2 (amended): for every top-level action invocation in which all nested
actions succeed, no abort occurs, and the final state differs by reference
from the pre-batch checkpoint, exactly one notification fires, carrying the
checkpoint, the final state, and the ordered action log with the root
record first followed by the nested records in call order; concretely, the
composite `increment(2)`-then-`increment(3)` scenario yields one
notification, `count = 5` and log `[COMPOSITE, INCREMENT, INCREMENT]`. -/
theorem c2_single_notification (t : String) (p : Payload) (b : Body σ) (s : Store σ)
    (hid : s.Idle)
    (hok : (runBody b (beginAction t p s)).1 = Except.ok ())
    (hnab : (runBody b (beginAction t p s)).2.abortSignal ≠ some true)
    (hchg : s.state.addr ≠ (runBody b (beginAction t p s)).2.state.addr) :
    (runAction t p b s).1 = Except.ok ()
  ∧ (runAction t p b s).2.notifications =
      s.notifications ++
        [⟨s.state, (runBody b (beginAction t p s)).2.state, ⟨t, p⟩ :: trace b⟩]
  ∧ (runAction t p b s).2.state = (runBody b (beginAction t p s)).2.state
  ∧ (runAction "COMPOSITE" Payload.empty compositeBody natStore).1 = Except.ok ()
  ∧ (runAction "COMPOSITE" Payload.empty compositeBody natStore).2.state.val = 5
  ∧ (runAction "COMPOSITE" Payload.empty compositeBody natStore).2.notifications.map
      (fun n => n.actions.map (fun a => a.type))
      = [["COMPOSITE", "INCREMENT", "INCREMENT"]]
  ∧ (runAction "COMPOSITE" Payload.empty compositeBody natStore).2.notifications.length = 1 := by
  have heq := runAction_eq t p b s hid
  have hnotif : (runBody b (beginAction t p s)).2.notifications = s.notifications := by
    rw [(runBody_nested b (beginAction t p s) (by rw [beginAction_batchCount]; omega)).2.2.1,
      beginAction_notifications]
  have key : runAction t p b s =
      (Except.ok (),
       clearBatch
         { (runBody b (beginAction t p s)).2 with
           batchCount := 0,
           notifications := (runBody b (beginAction t p s)).2.notifications ++
             [⟨s.state, (runBody b (beginAction t p s)).2.state, ⟨t, p⟩ :: trace b⟩] }) := by
    rw [heq]
    cases hrb : runBody b (beginAction t p s) with
    | mk r0 s2 =>
      rw [hrb] at hok hnab hchg
      dsimp only at hok hnab hchg
      rw [hok]
      dsimp only
      rw [if_neg hnab]
      unfold notifyGate
      rw [if_neg (by simpa using hchg)]
  refine ⟨by rw [key], ?_, by rw [key]; rfl, rfl, rfl, by decide, rfl⟩
  rw [key]
  dsimp only [clearBatch]
  rw [hnotif]

/-- C2 witness: the amended theorem applied to the concrete composite
scenario on the `{ count: 0 }` store. -/
theorem c2_witness :
    (runAction "COMPOSITE" Payload.empty compositeBody natStore).2.notifications =
      natStore.notifications ++
        [⟨natStore.state,
          (runBody compositeBody (beginAction "COMPOSITE" Payload.empty natStore)).2.state,
          ⟨"COMPOSITE", Payload.empty⟩ :: trace compositeBody⟩] :=
  (c2_single_notification "COMPOSITE" Payload.empty compositeBody natStore
    ⟨rfl, rfl, rfl, rfl⟩ rfl (by decide) (by decide)).2.1

/-- C4: abort semantics.  (a) If the body completes with the abort signal
fired, the root call fails with `Action aborted`, the state is reverted to
the pre-batch checkpoint and no notification is delivered.  (b) The signal
is observed only after the body's execution returns, never preemptively:
all code after `abort()` still runs, so a later throw in the body overrides
the aborted error, and (c) when the rest of the body succeeds its
allocations still happened before the rollback.  (d) `abort()` with no
active batch throws a synchronous error. -/
theorem c4_abort_semantics (t : String) (p : Payload) (b : Body σ) (s : Store σ)
    (hid : s.Idle) :
    ((runBody b (beginAction t p s)).1 = Except.ok () →
     (runBody b (beginAction t p s)).2.abortSignal = some true →
       (runAction t p b s).1 = Except.error "Action aborted"
     ∧ (runAction t p b s).2.state = s.state
     ∧ (runAction t p b s).2.notifications = s.notifications)
  ∧ (∀ m, (runBody b { beginAction t p s with abortSignal := some true }).1 = Except.error m →
      (runAction t p (Body.seq Body.abortCall b) s).1 = Except.error m)
  ∧ ((runBody b { beginAction t p s with abortSignal := some true }).1 = Except.ok () →
       (runAction t p (Body.seq Body.abortCall b) s).1 = Except.error "Action aborted"
     ∧ (runAction t p (Body.seq Body.abortCall b) s).2.state = s.state
     ∧ (runAction t p (Body.seq Body.abortCall b) s).2.nextAddr =
         (runBody b { beginAction t p s with abortSignal := some true }).2.nextAddr)
  ∧ Store.abort s = Except.error "No action is currently running to abort" := by
  obtain ⟨hc, hban, hin, hsig⟩ := hid
  have hid' : s.Idle := ⟨hc, hban, hin, hsig⟩
  have hnotif : (runBody b (beginAction t p s)).2.notifications = s.notifications := by
    rw [(runBody_nested b (beginAction t p s) (by rw [beginAction_batchCount]; omega)).2.2.1,
      beginAction_notifications]
  have habsig : (beginAction t p s).abortSignal = some false := by
    rw [beginAction_root t p s hc]
    simp [hsig]
  have hseq : runBody (Body.seq Body.abortCall b) (beginAction t p s) =
      runBody b { beginAction t p s with abortSignal := some true } := by
    simp only [runBody, habsig]
  refine ⟨?_, ?_, ?_, by simp [Store.abort, hsig]⟩
  · intro hok hab
    rw [runAction_eq t p b s hid']
    cases hrb : runBody b (beginAction t p s) with
    | mk r0 s2 =>
      rw [hrb] at hok hab hnotif
      dsimp only at hok hab hnotif
      rw [hok]
      dsimp only
      rw [if_pos hab]
      exact ⟨rfl, rfl, hnotif⟩
  · intro m herr
    rw [runAction_eq t p (Body.seq Body.abortCall b) s hid', hseq]
    cases hrb : runBody b { beginAction t p s with abortSignal := some true } with
    | mk r0 s2 =>
      rw [hrb] at herr
      dsimp only at herr
      rw [herr]
  · intro hok2
    have hmono := runBody_abort_mono b { beginAction t p s with abortSignal := some true }
      (by simp only [beginAction_batchCount]; omega) rfl
    have key2 : runAction t p (Body.seq Body.abortCall b) s =
        (Except.error "Action aborted",
         clearBatch
           { (runBody b { beginAction t p s with abortSignal := some true }).2 with
             batchCount := 0, state := s.state }) := by
      rw [runAction_eq t p (Body.seq Body.abortCall b) s hid', hseq]
      cases hrb : runBody b { beginAction t p s with abortSignal := some true } with
      | mk r0 s2 =>
        rw [hrb] at hok2 hmono
        dsimp only at hok2 hmono
        rw [hok2]
        dsimp only
        rw [if_pos hmono]
    exact ⟨by rw [key2], by rw [key2]; rfl, by rw [key2]; rfl⟩

/-- C4 witness: a concrete action that mutates state, aborts, and keeps
running to the end of its body before the abort is observed. -/
theorem c4_witness :
    (runAction "SLOW" Payload.empty
        (Body.seq Body.abortCall (Body.assign (fun _ => (100 : Nat)))) natStore).1 =
      Except.error "Action aborted"
  ∧ (runAction "SLOW" Payload.empty
        (Body.seq Body.abortCall (Body.assign (fun _ => (100 : Nat)))) natStore).2.state =
      natStore.state
  ∧ Store.abort natStore = Except.error "No action is currently running to abort" := by
  have h := c4_abort_semantics "SLOW" Payload.empty (Body.assign (fun _ => (100 : Nat)))
    natStore ⟨rfl, rfl, rfl, rfl⟩
  exact ⟨(h.2.2.1 rfl).1, (h.2.2.1 rfl).2.1, h.2.2.2⟩

/-- C10: subscribers are notified iff the previous and next states are
reference-distinct.  Every notification ever delivered (by batch completion
or `restoreFromHistory`) satisfies `prev ≠ next` by reference; a successful
root batch whose final state is reference-equal to its checkpoint emits no
notification; `restoreFromHistory` with a reference-equal state emits none;
and a deep-equal but freshly allocated state still triggers a notification
(deep equality is never consulted). -/
theorem c10_reference_identity_gate (t : String) (p : Payload) (b : Body σ)
    (s : Store σ) (x : RefVal σ) :
    (GateOK s → GateOK (runBody b s).2)
  ∧ (GateOK s → GateOK (Store.restoreFromHistory x s))
  ∧ (s.Idle → (runBody b (beginAction t p s)).1 = Except.ok () →
      (runBody b (beginAction t p s)).2.abortSignal ≠ some true →
      (runBody b (beginAction t p s)).2.state.addr = s.state.addr →
      (runAction t p b s).2.notifications = s.notifications)
  ∧ (x.addr = s.state.addr → (Store.restoreFromHistory x s).notifications = s.notifications)
  ∧ (runAction "CLONE" Payload.empty (Body.assign id) natStore).2.notifications.map
      (fun n => (n.prev.addr, n.next.addr, n.prev.val, n.next.val)) = [(0, 1, 0, 0)] := by
  refine ⟨runBody_gate b s, restoreFromHistory_gate x s, ?_, ?_, by decide⟩
  · intro hid hok hnab hsame
    have hnotif : (runBody b (beginAction t p s)).2.notifications = s.notifications := by
      rw [(runBody_nested b (beginAction t p s) (by rw [beginAction_batchCount]; omega)).2.2.1,
        beginAction_notifications]
    rw [runAction_eq t p b s hid]
    cases hrb : runBody b (beginAction t p s) with
    | mk r0 s2 =>
      rw [hrb] at hok hnab hsame hnotif
      dsimp only at hok hnab hsame hnotif
      rw [hok]
      dsimp only
      rw [if_neg hnab]
      unfold notifyGate
      rw [if_pos hsame.symm]
      exact hnotif
  · intro hx
    simp only [Store.restoreFromHistory, notifyGate]
    rw [if_pos hx.symm]

/-- C10 witness: restoring the current state reference delivers nothing. -/
theorem c10_witness :
    (Store.restoreFromHistory ⟨0, (0 : Nat)⟩ natStore).notifications =
      natStore.notifications :=
  (c10_reference_identity_gate "T" Payload.empty Body.skip natStore ⟨0, 0⟩).2.2.2.1 rfl

theorem idsGet_idsSet (m : List (String × String)) (k v : String) :
    idsGet (idsSet m k v) k = some v := by
  induction m with
  | nil => simp [idsGet, idsSet]
  | cons hd tl ih =>
      obtain ⟨k0, v0⟩ := hd
      by_cases hk : k0 = k
      · simp [idsGet, idsSet, hk]
      · simp [idsGet, idsSet, hk, ih]

theorem idsSet_of_idsGet (m : List (String × String)) (k v : String)
    (h : idsGet m k = some v) : idsSet m k v = m := by
  induction m with
  | nil => simp [idsGet] at h
  | cons hd tl ih =>
      obtain ⟨k0, v0⟩ := hd
      by_cases hk : k0 = k
      · subst hk
        simp [idsGet] at h
        simp [idsSet, h]
      · simp [idsGet, hk] at h
        simp [idsSet, hk, ih h]

/-- C7: `uniqueId(id, url)` throws when the id contains the `@` separator;
throws at registration time when the same id was registered from a
different definition site (pathname); and a re-registration of the same id
from the same site succeeds idempotently, returning the id unchanged and
leaving the registry unchanged. -/
theorem c7_uniqueId (id url : String) (ids : List (String × String)) :
    ('@' ∈ id.data →
      uniqueId id url ids =
        Except.error ("id \"" ++ id ++ "\" cannot contain \"@\" character"))
  ∧ (∀ ex, '@' ∉ id.data → idsGet ids id = some ex →
      ex ≠ id ++ "@" ++ pathnameOf url →
      uniqueId id url ids =
        Except.error ("Duplicate id \"" ++ ex ++ "\" found in \"" ++
          (id ++ "@" ++ pathnameOf url) ++ "\""))
  ∧ (∀ ids', uniqueId id url ids = Except.ok (id, ids') →
      uniqueId id url ids' = Except.ok (id, ids'))
  ∧ (∀ r, uniqueId id url ids = Except.ok r → r.1 = id) := by
  refine ⟨?_, ?_, ?_, ?_⟩
  · intro hat
    simp only [uniqueId]
    rw [if_pos (by simpa using hat)]
  · intro ex hat hget hne
    simp only [uniqueId]
    rw [if_neg (by simpa using hat)]
    simp only [hget]
    rw [if_pos hne]
  · intro ids' h
    by_cases hat : '@' ∈ id.data
    · simp only [uniqueId] at h
      rw [if_pos (by simpa using hat)] at h
      simp at h
    · have hids' : ids' = idsSet ids id (id ++ "@" ++ pathnameOf url) := by
        simp only [uniqueId] at h
        rw [if_neg (by simpa using hat)] at h
        cases hget : idsGet ids id with
        | none =>
            simp only [hget] at h
            simp only [Except.ok.injEq, Prod.mk.injEq] at h
            exact h.2.symm
        | some ex =>
            simp only [hget] at h
            by_cases hne : ex ≠ id ++ "@" ++ pathnameOf url
            · rw [if_pos hne] at h; simp at h
            · rw [if_neg hne] at h
              simp only [Except.ok.injEq, Prod.mk.injEq] at h
              exact h.2.symm
      have hget' : idsGet ids' id = some (id ++ "@" ++ pathnameOf url) := by
        rw [hids']
        exact idsGet_idsSet ids id _
      simp only [uniqueId]
      rw [if_neg (by simpa using hat)]
      simp only [hget']
      rw [if_neg (by simp), idsSet_of_idsGet ids' id _ hget']
  · intro r h
    by_cases hat : '@' ∈ id.data
    · simp only [uniqueId] at h
      rw [if_pos (by simpa using hat)] at h
      simp at h
    · simp only [uniqueId] at h
      rw [if_neg (by simpa using hat)] at h
      cases hget : idsGet ids id with
      | none =>
          simp only [hget] at h
          simp only [Except.ok.injEq] at h
          rw [← h]
      | some ex =>
          simp only [hget] at h
          by_cases hne : ex ≠ id ++ "@" ++ pathnameOf url
          · rw [if_pos hne] at h; simp at h
          · rw [if_neg hne] at h
            simp only [Except.ok.injEq] at h
            rw [← h]

/-- C7 witness: concrete registrations mirroring the repository's tests. -/
theorem c7_witness :
    uniqueId "invalid@id" "file:///test/path.ts" [] =
      Except.error ("id \"" ++ "invalid@id" ++ "\" cannot contain \"@\" character")
  ∧ uniqueId "duplicateId" "file:///test/path2.ts"
      [("duplicateId", "duplicateId@/test/path1.ts")] =
      Except.error
        ("Duplicate id \"" ++ "duplicateId@/test/path1.ts" ++ "\" found in \"" ++
          ("duplicateId" ++ "@" ++ pathnameOf "file:///test/path2.ts") ++ "\"")
  ∧ uniqueId "sameFileId" "file:///test/same.ts"
      [("sameFileId", "sameFileId@/test/same.ts")] =
      Except.ok ("sameFileId", [("sameFileId", "sameFileId@/test/same.ts")]) := by
  refine ⟨(c7_uniqueId "invalid@id" "file:///test/path.ts" []).1 (by decide), ?_, ?_⟩
  · exact (c7_uniqueId "duplicateId" "file:///test/path2.ts"
      [("duplicateId", "duplicateId@/test/path1.ts")]).2.1
      "duplicateId@/test/path1.ts" (by decide) (by decide) (by decide)
  · exact (c7_uniqueId "sameFileId" "file:///test/same.ts" []).2.2.1
      [("sameFileId", "sameFileId@/test/same.ts")] rfl

theorem notifyAll_get (subs : List (Subscriber σ)) (p n : RefVal σ) (a : List ActionType) :
    ∀ i sub, subs.get? i = some sub →
      (notifyAll subs p n a).get? i = some (notifyOne sub p n a) := by
  induction subs with
  | nil => intro i sub h; simp at h
  | cons hd tl ih =>
      intro i sub h
      cases i with
      | zero =>
          rw [List.get?_cons_zero] at h
          injection h with h1
          subst h1
          rfl
      | succ j =>
          rw [List.get?_cons_succ] at h
          rw [show notifyAll (hd :: tl) p n a = notifyOne hd p n a :: notifyAll tl p n a
              from rfl,
            List.get?_cons_succ]
          exact ih j sub h

/-- C8: for a delivered notification (reference-distinct states), every
subscriber is processed exactly once (throws never interrupt the loop or
propagate); a subscriber's callback is invoked iff it has no filter or its
filter returns true; a throwing filter suppresses the callback and is
caught; an unfiltered subscriber is always invoked, its own throw being
caught as well. -/
theorem c8_subscriber_isolation (subs : List (Subscriber σ)) (p n : RefVal σ)
    (a : List ActionType) (hne : p.addr ≠ n.addr) :
    (notifySubscribers subs p n a).length = subs.length
  ∧ (∀ i sub, subs.get? i = some sub →
      ∃ o, (notifySubscribers subs p n a).get? i = some o
        ∧ (o.isFired = true ↔ passes sub p n a))
  ∧ (∀ i sub f, subs.get? i = some sub → sub.filter = some f →
      (∃ e, f p n a = Except.error e) →
      (notifySubscribers subs p n a).get? i = some Outcome.filterErrored)
  ∧ (∀ i sub, subs.get? i = some sub → sub.filter = none →
      ∃ th, (notifySubscribers subs p n a).get? i = some (Outcome.fired th)) := by
  have hgate : notifySubscribers subs p n a = notifyAll subs p n a := by
    simp [notifySubscribers, hne]
  have hlen : ∀ (l : List (Subscriber σ)), (notifyAll l p n a).length = l.length := by
    intro l
    induction l with
    | nil => rfl
    | cons hd tl ih => simp [notifyAll, ih]
  refine ⟨by rw [hgate]; exact hlen subs, ?_, ?_, ?_⟩
  · intro i sub h
    rw [hgate, notifyAll_get subs p n a i sub h]
    refine ⟨notifyOne sub p n a, rfl, ?_⟩
    cases hf : sub.filter with
    | none =>
        simp only [notifyOne, passes, hf]
        cases sub.callback p n a <;> simp [Outcome.isFired]
    | some f =>
        simp only [notifyOne, passes, hf]
        cases hr : f p n a with
        | error e => simp [hr, Outcome.isFired]
        | ok bv =>
            cases bv
            · simp [hr, Outcome.isFired]
            · cases hcb : sub.callback p n a <;> simp [hr, hcb, Outcome.isFired]
  · intro i sub f h hf hex
    obtain ⟨e, he⟩ := hex
    rw [hgate, notifyAll_get subs p n a i sub h]
    simp [notifyOne, hf, he]
  · intro i sub h hf
    rw [hgate, notifyAll_get subs p n a i sub h]
    cases hcb : sub.callback p n a with
    | ok u => exact ⟨false, by simp [notifyOne, hf, hcb]⟩
    | error e => exact ⟨true, by simp [notifyOne, hf, hcb]⟩

/-- C8 witness: the concrete subscriber set on a delivered notification;
the throwing filter's subscriber does not fire and the rest of the loop is
unaffected. -/
theorem c8_witness :
    (notifySubscribers c8subs ⟨0, 0⟩ ⟨1, 5⟩ []).length = c8subs.length
  ∧ (notifySubscribers c8subs ⟨0, 0⟩ ⟨1, 5⟩ []).get? 2 = some Outcome.filterErrored := by
  have h := c8_subscriber_isolation c8subs ⟨0, 0⟩ ⟨1, 5⟩ [] (by decide)
  refine ⟨h.1, ?_⟩
  exact h.2.2.1 2 ⟨some (fun _ _ _ => Except.error "Filter error"), fun _ _ _ => Except.ok ()⟩
    (fun _ _ _ => Except.error "Filter error") rfl rfl ⟨"Filter error", rfl⟩

theorem HistoryState.update_self (h : HistoryState σ) (he : h.entries = [])
    (hc : h.currentIndex = -1) :
    ({ h with entries := ([] : List (HistoryEntry σ)), currentIndex := -1 }) = h := by
  obtain ⟨m, sc, ini, ents, ci, subd⟩ := h
  dsimp only at he hc
  subst he
  subst hc
  rfl

theorem captureFold_unsub (notes : List (Notification σ)) :
    ∀ acc : Sys σ, acc.hist.subscribed = false →
      (notes.foldl
        (fun acc note =>
          if acc.hist.subscribed && acc.hist.shouldCapture note.actions then
            Sys.captureState note.actions none acc
          else acc) acc).hist = acc.hist := by
  induction notes with
  | nil => intro acc h; rfl
  | cons nd tl ih =>
      intro acc h
      rw [List.foldl_cons, if_neg (by simp [h])]
      exact ih acc h

theorem runRootAction_hist_unsub (t : String) (p : Payload) (b : Body σ) (sys : Sys σ)
    (h : sys.hist.subscribed = false) :
    (Sys.runRootAction t p b sys).2.hist = sys.hist := by
  simp only [Sys.runRootAction]
  rw [captureFold_unsub _ _ (by simpa using h)]

theorem applyOp_inert (op : HOp σ) (hop : InertOp op) (sys2 : Sys σ)
    (he : sys2.hist.entries = []) (hc : sys2.hist.currentIndex = -1)
    (hs : sys2.hist.subscribed = false) :
    (applyOp op sys2).hist = sys2.hist := by
  cases op with
  | capture l => exact hop.elim
  | clear => exact hop.elim
  | startAuto => exact hop.elim
  | undo =>
      simp only [applyOp, Sys.undo]
      rw [if_neg (by simp [Sys.canUndo, hc])]
  | redo =>
      simp only [applyOp, Sys.redo]
      rw [if_neg (by simp [Sys.canRedo, hc, he])]
  | jumpTo i =>
      simp only [applyOp, Sys.jumpTo]
      rw [if_pos (by rw [he]; simp; omega)]
  | dispose =>
      simp only [applyOp, Sys.dispose, Sys.stopAutoCapture]
      rw [if_neg (by simp [hs])]
      exact HistoryState.update_self sys2.hist he hc
  | stopAuto =>
      simp only [applyOp, Sys.stopAutoCapture]
      rw [if_neg (by simp [hs])]
  | act t p b => exact runRootAction_hist_unsub t p b sys2 hs

/-- C9 counterexample: `capture()` after `dispose()` repopulates the entry
log (one entry), so a disposed instance is not inert for `capture`
(`clear()` likewise restores the store and reseeds the log). -/
theorem c9_counterexample :
    (Sys.dispose natSys).hist.entries.length = 0
  ∧ (Sys.capture (some "after dispose") (Sys.dispose natSys)).hist.entries.length = 1 := by
  exact ⟨rfl, rfl⟩

/-- C9 (amended): after `dispose()` the overlay has unsubscribed and
discarded its log; `undo`/`redo`/`jumpTo` are inert (they return false and
change neither the store nor the log), store actions are no longer
captured, and the log stays empty under any sequence of such operations —
but `capture()` and `clear()` still operate on the disposed instance. -/
theorem c9_dispose_inert (sys : Sys σ) :
    (Sys.dispose sys).hist.entries = []
  ∧ (Sys.dispose sys).hist.subscribed = false
  ∧ Sys.undo (Sys.dispose sys) = (false, Sys.dispose sys)
  ∧ Sys.redo (Sys.dispose sys) = (false, Sys.dispose sys)
  ∧ (∀ i, Sys.jumpTo i (Sys.dispose sys) = (false, Sys.dispose sys))
  ∧ (∀ t p b, (Sys.runRootAction t p b (Sys.dispose sys)).2.hist = (Sys.dispose sys).hist)
  ∧ (∀ ops : List (HOp σ), (∀ op ∈ ops, InertOp op) →
      (applyOps ops (Sys.dispose sys)).hist = (Sys.dispose sys).hist) := by
  have he : (Sys.dispose sys).hist.entries = [] := rfl
  have hc : (Sys.dispose sys).hist.currentIndex = -1 := rfl
  have hs : (Sys.dispose sys).hist.subscribed = false := by
    simp only [Sys.dispose, Sys.stopAutoCapture]
    split
    · rfl
    · rename_i h
      simpa using h
  refine ⟨he, hs, ?_, ?_, ?_, ?_, ?_⟩
  · simp only [Sys.undo]
    rw [if_neg (by simp [Sys.canUndo, hc])]
  · simp only [Sys.redo]
    rw [if_neg (by simp [Sys.canRedo, hc, he])]
  · intro i
    simp only [Sys.jumpTo]
    rw [if_pos (by rw [he]; simp; omega)]
  · intro t p b
    exact runRootAction_hist_unsub t p b (Sys.dispose sys) hs
  · intro ops hin
    have main : ∀ (ops2 : List (HOp σ)), (∀ op ∈ ops2, InertOp op) →
        ∀ sys2 : Sys σ, sys2.hist.entries = [] → sys2.hist.currentIndex = -1 →
        sys2.hist.subscribed = false → (applyOps ops2 sys2).hist = sys2.hist := by
      intro ops2
      induction ops2 with
      | nil => intro _ sys2 _ _ _; rfl
      | cons op tl ih =>
          intro hin2 sys2 he2 hc2 hs2
          have hstep := applyOp_inert op (hin2 op (by simp)) sys2 he2 hc2 hs2
          have := ih (fun o ho => hin2 o (by simp [ho])) (applyOp op sys2)
            (by rw [hstep]; exact he2) (by rw [hstep]; exact hc2) (by rw [hstep]; exact hs2)
          calc (applyOps (op :: tl) sys2).hist
              = (applyOps tl (applyOp op sys2)).hist := rfl
            _ = (applyOp op sys2).hist := this
            _ = sys2.hist := hstep
    exact main ops hin (Sys.dispose sys) he hc hs

/-- C9 witness: the amended inertness applied on the concrete system. -/
theorem c9_witness :
    Sys.undo (Sys.dispose natSys) = (false, Sys.dispose natSys)
  ∧ (Sys.runRootAction "INCREMENT" Payload.empty (incBody 1)
      (Sys.dispose natSys)).2.hist = (Sys.dispose natSys).hist := by
  have h := c9_dispose_inert natSys
  exact ⟨h.2.2.1, h.2.2.2.2.2.1 "INCREMENT" Payload.empty (incBody 1)⟩

theorem captureState_maxHistorySize (a : List ActionType) (l : Option String) (sys : Sys σ) :
    (Sys.captureState a l sys).hist.maxHistorySize = sys.hist.maxHistorySize := by
  simp only [Sys.captureState]
  split <;> split <;> rfl

theorem captureState_length_le (a : List ActionType) (l : Option String) (sys : Sys σ)
    (hk : sys.hist.entries.length ≤ sys.hist.maxHistorySize) :
    (Sys.captureState a l sys).hist.entries.length ≤ sys.hist.maxHistorySize := by
  simp only [Sys.captureState]
  split <;> split
  · simp only [List.length_drop]
    omega
  · rename_i h2
    simp only [List.length_append, List.length_take, List.length_singleton] at h2 ⊢
    omega
  · simp only [List.length_drop]
    omega
  · rename_i h2
    simp only [List.length_append, List.length_singleton] at h2 ⊢
    omega

theorem undo_entries (sys : Sys σ) :
    (Sys.undo sys).2.hist.entries = sys.hist.entries
  ∧ (Sys.undo sys).2.hist.maxHistorySize = sys.hist.maxHistorySize := by
  simp only [Sys.undo, Sys.applyHistoryEntry]
  split
  · split <;> exact ⟨rfl, rfl⟩
  · exact ⟨rfl, rfl⟩

theorem redo_entries (sys : Sys σ) :
    (Sys.redo sys).2.hist.entries = sys.hist.entries
  ∧ (Sys.redo sys).2.hist.maxHistorySize = sys.hist.maxHistorySize := by
  simp only [Sys.redo, Sys.applyHistoryEntry]
  split
  · split <;> exact ⟨rfl, rfl⟩
  · exact ⟨rfl, rfl⟩

theorem jumpTo_entries (i : Int) (sys : Sys σ) :
    (Sys.jumpTo i sys).2.hist.entries = sys.hist.entries
  ∧ (Sys.jumpTo i sys).2.hist.maxHistorySize = sys.hist.maxHistorySize := by
  simp only [Sys.jumpTo, Sys.applyHistoryEntry]
  split
  · exact ⟨rfl, rfl⟩
  · split <;> exact ⟨rfl, rfl⟩

/-- The length/size invariant threaded through every operation. -/
def SizeInv (k : Nat) (sys : Sys σ) : Prop :=
  sys.hist.maxHistorySize = k ∧ sys.hist.entries.length ≤ k

theorem captureState_sizeInv (k : Nat) (a : List ActionType) (l : Option String)
    (sys : Sys σ) (h : SizeInv k sys) : SizeInv k (Sys.captureState a l sys) := by
  obtain ⟨h1, h2⟩ := h
  refine ⟨by rw [captureState_maxHistorySize, h1], ?_⟩
  have := captureState_length_le a l sys (by rw [h1]; exact h2)
  rw [h1] at this
  exact this

theorem captureFold_sizeInv (k : Nat) (notes : List (Notification σ)) :
    ∀ acc : Sys σ, SizeInv k acc →
      SizeInv k
        (notes.foldl
          (fun acc note =>
            if acc.hist.subscribed && acc.hist.shouldCapture note.actions then
              Sys.captureState note.actions none acc
            else acc) acc) := by
  induction notes with
  | nil => intro acc h; exact h
  | cons nd tl ih =>
      intro acc h
      rw [List.foldl_cons]
      by_cases hc : acc.hist.subscribed && acc.hist.shouldCapture nd.actions
      · rw [if_pos hc]
        exact ih _ (captureState_sizeInv k nd.actions none acc h)
      · rw [if_neg hc]
        exact ih acc h

theorem applyOp_sizeInv (k : Nat) (hk : 1 ≤ k) (op : HOp σ) (sys : Sys σ)
    (h : SizeInv k sys) : SizeInv k (applyOp op sys) := by
  obtain ⟨h1, h2⟩ := h
  cases op with
  | capture l =>
      simp only [applyOp, Sys.capture]
      exact captureState_sizeInv k [] l sys ⟨h1, h2⟩
  | undo =>
      simp only [applyOp]
      refine ⟨?_, ?_⟩
      · rw [(undo_entries sys).2, h1]
      · rw [(undo_entries sys).1]
        exact h2
  | redo =>
      simp only [applyOp]
      refine ⟨?_, ?_⟩
      · rw [(redo_entries sys).2, h1]
      · rw [(redo_entries sys).1]
        exact h2
  | jumpTo i =>
      simp only [applyOp]
      refine ⟨?_, ?_⟩
      · rw [(jumpTo_entries i sys).2, h1]
      · rw [(jumpTo_entries i sys).1]
        exact h2
  | clear =>
      refine ⟨by simp [applyOp, Sys.clear, Sys.captureInitialState, h1], ?_⟩
      simp [applyOp, Sys.clear, Sys.captureInitialState]
      omega
  | dispose =>
      refine ⟨?_, ?_⟩
      · simp only [applyOp, Sys.dispose, Sys.stopAutoCapture]
        split
        · simpa using h1
        · simpa using h1
      · simp [applyOp, Sys.dispose, Sys.stopAutoCapture]
  | startAuto =>
      simp only [applyOp, Sys.startAutoCapture]
      split
      · exact ⟨h1, h2⟩
      · exact ⟨h1, h2⟩
  | stopAuto =>
      simp only [applyOp, Sys.stopAutoCapture]
      split
      · exact ⟨h1, h2⟩
      · exact ⟨h1, h2⟩
  | act t p b =>
      simp only [applyOp, Sys.runRootAction]
      exact captureFold_sizeInv k _ _ ⟨h1, h2⟩

theorem mkSys_sizeInv (k : Nat) (hk : 1 ≤ k) (store : Store σ)
    (auto : Option Bool) (f : Option (List ActionType → Bool)) :
    SizeInv k (mkSys store ⟨some k, auto, f⟩) := by
  simp only [mkSys, Sys.captureInitialState]
  split
  · exact ⟨rfl, by simpa using hk⟩
  · exact ⟨rfl, by simpa using hk⟩

/-- C6 counterexample: a `History` constructed with `maxHistorySize = 0`
already holds one entry (the initial entry is pushed without trimming), so
`getHistory().length ≤ k` fails for `k = 0`. -/
theorem c6_counterexample :
    (mkSys natStore ⟨some 0, none, none⟩).hist.maxHistorySize = 0
  ∧ (mkSys natStore ⟨some 0, none, none⟩).hist.entries.length = 1
  ∧ ¬((Sys.getHistory (mkSys natStore ⟨some 0, none, none⟩)).length ≤
      (mkSys natStore ⟨some 0, none, none⟩).hist.maxHistorySize) := by
  exact ⟨rfl, rfl, by decide⟩

/-- C6 (amended): for every `History` constructed with
`maxHistorySize = k ≥ 1`, after any sequence of operations (captures,
undos, redos, jumps, clears, disposals, store actions),
`getHistory().length ≤ k`; when a capture exceeds the limit the oldest
entry is trimmed and the cursor shifts down by the trimmed count. -/
theorem c6_max_history_bound (k : Nat) (hk : 1 ≤ k) (store : Store σ)
    (auto : Option Bool) (f : Option (List ActionType → Bool)) (ops : List (HOp σ)) :
    (Sys.getHistory (applyOps ops (mkSys store ⟨some k, auto, f⟩))).length ≤ k
  ∧ (∀ (sys : Sys σ) (a : List ActionType) (l : Option String),
      sys.hist.maxHistorySize = k → sys.hist.entries.length = k →
      sys.hist.currentIndex = (k : Int) - 1 →
      (Sys.captureState a l sys).hist.entries =
        sys.hist.entries.drop 1 ++
          [⟨sys.store.getSnapshot, a, sys.store.clock, l⟩]
      ∧ (Sys.captureState a l sys).hist.currentIndex = (k : Int) - 1) := by
  constructor
  · have main : ∀ (ops2 : List (HOp σ)) (sys : Sys σ), SizeInv k sys →
        SizeInv k (applyOps ops2 sys) := by
      intro ops2
      induction ops2 with
      | nil => intro sys h; exact h
      | cons op tl ih =>
          intro sys h
          exact ih (applyOp op sys) (applyOp_sizeInv k hk op sys h)
    exact (main ops _ (mkSys_sizeInv k hk store auto f)).2
  · intro sys a l hmax hlen hci
    simp only [Sys.captureState]
    have hnotrunc : ¬(sys.hist.currentIndex < (sys.hist.entries.length : Int) - 1) := by
      rw [hci, hlen]
      omega
    rw [if_neg hnotrunc]
    have htrim : (sys.hist.entries ++
        [({ state := sys.store.getSnapshot, actions := a, timestamp := sys.store.clock,
            label := l } : HistoryEntry σ)]).length > sys.hist.maxHistorySize := by
      simp [List.length_append, hlen, hmax]
    rw [if_pos htrim]
    constructor
    · dsimp only
      rw [List.length_append, List.length_singleton, hlen, hmax,
        show k + 1 - k = 1 from by omega,
        List.drop_append_of_le_length (by omega)]
    · dsimp only
      rw [List.length_append, List.length_singleton, hlen, hmax,
        show k + 1 - k = 1 from by omega]
      push_cast
      omega

/-- C6 witness: the bound applied after concrete operations with `k = 3`,
exceeding the limit. -/
theorem runAction_ok_charac (t : String) (p : Payload) (b : Body σ) (s : Store σ)
    (hid : s.Idle) (hok : (runAction t p b s).1 = Except.ok ()) :
    (runAction t p b s).2.state = (runBody b (beginAction t p s)).2.state
  ∧ (runAction t p b s).2.notifications =
      s.notifications ++
        (if s.state.addr = (runBody b (beginAction t p s)).2.state.addr then []
         else [⟨s.state, (runBody b (beginAction t p s)).2.state, ⟨t, p⟩ :: trace b⟩])
  ∧ (runAction t p b s).2.Idle := by
  have heq := runAction_eq t p b s hid
  have hnotif : (runBody b (beginAction t p s)).2.notifications = s.notifications := by
    rw [(runBody_nested b (beginAction t p s) (by rw [beginAction_batchCount]; omega)).2.2.1,
      beginAction_notifications]
  rw [heq] at hok ⊢
  cases hrb : runBody b (beginAction t p s) with
  | mk r0 s2 =>
    rw [hrb] at hok hnotif
    dsimp only at hok hnotif
    cases r0 with
    | error e => exact absurd hok (by simp)
    | ok u =>
      cases u
      dsimp only at hok ⊢
      by_cases hab : s2.abortSignal = some true
      · rw [if_pos hab] at hok
        exact absurd hok (by simp)
      · rw [if_neg hab]
        dsimp only
        unfold notifyGate
        by_cases haddr : s.state.addr = s2.state.addr
        · rw [if_pos haddr, if_pos haddr]
          exact ⟨rfl, by simpa using hnotif, rfl, rfl, rfl, rfl⟩
        · rw [if_neg haddr, if_neg haddr]
          refine ⟨rfl, ?_, rfl, rfl, rfl, rfl⟩
          dsimp only [clearBatch]
          rw [hnotif]

theorem restoreFromHistory_state (x : RefVal σ) (s : Store σ) :
    (Store.restoreFromHistory x s).state = x := by
  simp only [Store.restoreFromHistory, notifyGate]
  split <;> rfl

theorem captureState_fields (a : List ActionType) (l : Option String) (sys : Sys σ) :
    (Sys.captureState a l sys).hist.subscribed = sys.hist.subscribed
  ∧ (Sys.captureState a l sys).hist.shouldCapture = sys.hist.shouldCapture
  ∧ (Sys.captureState a l sys).hist.initialState = sys.hist.initialState
  ∧ (Sys.captureState a l sys).store = sys.store := by
  simp only [Sys.captureState]
  split <;> split <;> exact ⟨rfl, rfl, rfl, rfl⟩

theorem captureState_append (a : List ActionType) (l : Option String) (sys : Sys σ)
    (hci : sys.hist.currentIndex = (sys.hist.entries.length : Int) - 1)
    (hlen : sys.hist.entries.length + 1 ≤ sys.hist.maxHistorySize) :
    (Sys.captureState a l sys).hist.entries =
      sys.hist.entries ++ [⟨sys.store.getSnapshot, a, sys.store.clock, l⟩]
  ∧ (Sys.captureState a l sys).hist.currentIndex = (sys.hist.entries.length : Int) := by
  simp only [Sys.captureState]
  have h1 : ¬(sys.hist.currentIndex < (sys.hist.entries.length : Int) - 1) := by
    rw [hci]
    omega
  rw [if_neg h1]
  have h2 : ¬((sys.hist.entries ++
      [({ state := sys.store.getSnapshot, actions := a, timestamp := sys.store.clock,
          label := l } : HistoryEntry σ)]).length > sys.hist.maxHistorySize) := by
    simp only [List.length_append, List.length_singleton]
    omega
  rw [if_neg h2]
  refine ⟨rfl, ?_⟩
  dsimp only
  rw [List.length_append, List.length_singleton]
  push_cast
  omega

theorem captureFold_store (notes : List (Notification σ)) :
    ∀ acc : Sys σ,
      (notes.foldl
        (fun acc note =>
          if acc.hist.subscribed && acc.hist.shouldCapture note.actions then
            Sys.captureState note.actions none acc
          else acc) acc).store = acc.store := by
  induction notes with
  | nil => intro acc; rfl
  | cons nd tl ih =>
      intro acc
      rw [List.foldl_cons]
      by_cases hc : acc.hist.subscribed && acc.hist.shouldCapture nd.actions
      · rw [if_pos hc, ih, (captureState_fields nd.actions none acc).2.2.2]
      · rw [if_neg hc, ih]

theorem c5_step (init : RefVal σ) (n : Nat) (sys : Sys σ) (hinv : C5Inv init n sys)
    (hn : n + 2 ≤ 50) (t : String) (p : Payload) (b : Body σ)
    (hok : (Sys.runRootAction t p b sys).1 = Except.ok ())
    (hchg : (Sys.runRootAction t p b sys).2.store.state.addr ≠ sys.store.state.addr) :
    C5Inv init (n + 1) (Sys.runRootAction t p b sys).2 := by
  obtain ⟨hidle, hsub, hmax, hsc, hini, hlen, hci, hhead⟩ := hinv
  have hok' : (runAction t p b sys.store).1 = Except.ok () := hok
  obtain ⟨hst, hnot, hidle'⟩ := runAction_ok_charac t p b sys.store hidle hok'
  have hchg' : (runAction t p b sys.store).2.state.addr ≠ sys.store.state.addr := by
    have : (Sys.runRootAction t p b sys).2.store = (runAction t p b sys.store).2 := by
      simp only [Sys.runRootAction]
      rw [captureFold_store]
    rw [this] at hchg
    exact hchg
  have haddr : ¬(sys.store.state.addr = (runBody b (beginAction t p sys.store)).2.state.addr) := by
    rw [hst] at hchg'
    exact fun h => hchg' (h.symm)
  rw [if_neg haddr] at hnot
  -- the root action delivered exactly one notification
  have hnotes : (runAction t p b sys.store).2.notifications.drop
      sys.store.notifications.length =
      [⟨sys.store.state, (runBody b (beginAction t p sys.store)).2.state,
        ⟨t, p⟩ :: trace b⟩] := by
    rw [hnot, List.drop_left]
  have hrun : (Sys.runRootAction t p b sys).2 =
      Sys.captureState (⟨t, p⟩ :: trace b) none
        { sys with store := (runAction t p b sys.store).2 } := by
    simp only [Sys.runRootAction]
    rw [hnotes, List.foldl_cons, List.foldl_nil, if_pos (by simp [hsub, hsc])]
  rw [hrun]
  have hsys1 : ({ sys with store := (runAction t p b sys.store).2 } : Sys σ).hist = sys.hist := rfl
  have happ := captureState_append (⟨t, p⟩ :: trace b) none
    { sys with store := (runAction t p b sys.store).2 }
    (by rw [hsys1, hci, hlen]; push_cast; omega)
    (by rw [hsys1, hlen, hmax]; omega)
  have hflds := captureState_fields (⟨t, p⟩ :: trace b) none
    { sys with store := (runAction t p b sys.store).2 }
  refine ⟨?_, ?_, ?_, ?_, ?_, ?_, ?_, ?_⟩
  · rw [hflds.2.2.2]
    exact hidle'
  · rw [hflds.1, hsys1]
    exact hsub
  · rw [captureState_maxHistorySize, hsys1]
    exact hmax
  · intro a
    rw [hflds.2.1, hsys1]
    exact hsc a
  · rw [hflds.2.2.1, hsys1]
    exact hini
  · rw [happ.1, hsys1, List.length_append, List.length_singleton, hlen]
  · rw [happ.2, hsys1, hlen]
  · rw [happ.1, hsys1]
    have hne : sys.hist.entries ≠ [] := by
      intro h
      rw [h] at hlen
      simp at hlen
    obtain ⟨e0, rest, hE⟩ := List.exists_cons_of_ne_nil hne
    rw [hE] at hhead ⊢
    simpa using hhead

theorem undo_chain (E : List (HistoryEntry σ)) :
    ∀ (j : Nat) (sys : Sys σ), sys.hist.entries = E → sys.hist.currentIndex = (j : Int) →
      j < E.length →
      (undoN j sys).hist.entries = E
    ∧ (undoN j sys).hist.currentIndex = 0
    ∧ (1 ≤ j → E.head?.map (fun e => e.state) = some ((undoN j sys).store.state)) := by
  intro j
  induction j with
  | zero =>
      intro sys hE hci hlt
      exact ⟨hE, hci, fun h => absurd h (by omega)⟩
  | succ m ih =>
      intro sys hE hci hlt
      have hcan : sys.canUndo = true := by
        simp only [Sys.canUndo, hci, decide_eq_true_eq]
        push_cast
        omega
      have hmlt : m < E.length := by omega
      obtain ⟨em, hem⟩ : ∃ e, E.get? m = some e := by
        rw [List.get?_eq_get hmlt]
        exact ⟨_, rfl⟩
      have hundo : Sys.undo sys =
          (true, { sys with
            store := Store.restoreFromHistory em.state sys.store,
            hist := { sys.hist with currentIndex := (m : Int) } }) := by
        simp only [Sys.undo]
        rw [if_pos hcan]
        have hi : sys.hist.currentIndex - 1 = (m : Int) := by
          rw [hci]
          push_cast
          ring
        rw [hi]
        have hget : getAtInt
            ({ sys with hist := { sys.hist with currentIndex := (m : Int) } } : Sys σ).hist.entries
            ((m : Nat) : Int) = some em := by
          show getAtInt sys.hist.entries ((m : Nat) : Int) = some em
          unfold getAtInt
          rw [if_neg (by omega), hE, Int.toNat_natCast]
          exact hem
        simp only [hget, Sys.applyHistoryEntry]
      have hres := ih (Sys.undo sys).2 (by rw [hundo]; exact hE) (by rw [hundo]) hmlt
      refine ⟨hres.1, hres.2.1, ?_⟩
      intro h1
      by_cases hm : 1 ≤ m
      · exact hres.2.2 hm
      · have hm0 : m = 0 := by omega
        subst hm0
        show E.head?.map (fun e => e.state) = some ((undoN 0 (Sys.undo sys).2).store.state)
        rw [show undoN 0 (Sys.undo sys).2 = (Sys.undo sys).2 from rfl, hundo]
        dsimp only
        rw [restoreFromHistory_state, ← List.get?_zero, hem]
        rfl

theorem undo_moved_iff (sys : Sys σ) :
    (Sys.undo sys).1 = true ↔ (Sys.undo sys).2.hist.currentIndex ≠ sys.hist.currentIndex := by
  simp only [Sys.undo]
  split
  · split
    · simp only [Sys.applyHistoryEntry]
      constructor
      · intro _
        dsimp only
        omega
      · intro _
        trivial
    · constructor
      · intro _
        dsimp only
        omega
      · intro _
        trivial
  · simp

theorem redo_moved_iff (sys : Sys σ) :
    (Sys.redo sys).1 = true ↔ (Sys.redo sys).2.hist.currentIndex ≠ sys.hist.currentIndex := by
  simp only [Sys.redo]
  split
  · split
    · simp only [Sys.applyHistoryEntry]
      constructor
      · intro _
        dsimp only
        omega
      · intro _
        trivial
    · constructor
      · intro _
        dsimp only
        omega
      · intro _
        trivial
  · simp

theorem redo_at_end_false (sys : Sys σ)
    (hend : sys.hist.currentIndex = (sys.hist.entries.length : Int) - 1) :
    (Sys.redo sys).1 = false := by
  simp only [Sys.redo]
  rw [if_neg (by simp [Sys.canRedo, hend])]

theorem beginAction_clock (t : String) (p : Payload) (s : Store σ) :
    (beginAction t p s).clock = s.clock := by
  unfold beginAction
  split <;> rfl

theorem fsettleAction_nested (r0 : Except String Unit) (fs : FStore σ)
    (h : 2 ≤ fs.toStore.batchCount) :
    fsettleAction r0 fs =
      ((match r0 with
        | Except.ok _ =>
            if fs.toStore.abortSignal = some true then Except.error "Action aborted"
            else Except.ok ()
        | Except.error e => Except.error e),
       { fs with toStore := { fs.toStore with batchCount := fs.toStore.batchCount - 1 } }) := by
  unfold fsettleAction
  rw [if_neg (by simp; omega)]

/-- While a batch is in flight, running any flush-free (lifted) body on the
flush-capable store keeps the nesting count, the checkpoint, the delivered
notifications, the flush checkpoint and the clock unchanged, and on
success appends exactly the body's action records to the batched log. -/
theorem runF_lift_nested (b : Body σ) : ∀ fs : FStore σ, 1 ≤ fs.toStore.batchCount →
      (runF (liftB b) fs).2.toStore.batchCount = fs.toStore.batchCount
    ∧ (runF (liftB b) fs).2.toStore.initialState = fs.toStore.initialState
    ∧ (runF (liftB b) fs).2.toStore.notifications = fs.toStore.notifications
    ∧ (runF (liftB b) fs).2.flushedState = fs.flushedState
    ∧ (runF (liftB b) fs).2.toStore.clock = fs.toStore.clock
    ∧ ∀ l, fs.toStore.batchedActions = some l → (runF (liftB b) fs).1 = Except.ok () →
        (runF (liftB b) fs).2.toStore.batchedActions = some (l ++ trace b) := by
  induction b with
  | skip => intro fs h; simp [liftB, runF, trace]
  | assign f => intro fs h; simp [liftB, runF, trace]
  | throwErr m => intro fs h; simp [liftB, runF, trace]
  | abortCall =>
      intro fs h
      simp only [liftB, runF]
      cases hsig : fs.toStore.abortSignal <;> simp [trace]
  | seq a b iha ihb =>
      intro fs h
      obtain ⟨ha1, ha2, ha3, ha4, ha5, ha6⟩ := iha fs h
      simp only [liftB, runF]
      cases hra : runF (liftB a) fs with
      | mk r1 fs1 =>
        rw [hra] at ha1 ha2 ha3 ha4 ha5 ha6
        dsimp only at ha1 ha2 ha3 ha4 ha5 ha6
        cases r1 with
        | error e =>
            refine ⟨ha1, ha2, ha3, ha4, ha5, ?_⟩
            intro l hl hok
            exact absurd hok (by simp)
        | ok u =>
          cases u
          obtain ⟨hb1, hb2, hb3, hb4, hb5, hb6⟩ := ihb fs1 (by omega)
          refine ⟨by rw [hb1, ha1], by rw [hb2, ha2], by rw [hb3, ha3],
            by rw [hb4, ha4], by rw [hb5, ha5], ?_⟩
          intro l hl hok
          have hs1 : fs1.toStore.batchedActions = some (l ++ trace a) := ha6 l hl rfl
          have h6 := hb6 (l ++ trace a) hs1 hok
          simp only [trace, List.append_assoc] at h6 ⊢
          exact h6
  | call t p b ih =>
      intro fs h
      have hb : beginAction t p fs.toStore =
          { fs.toStore with
            abortSignal := some (fs.toStore.abortSignal.getD false),
            batchedActions := some (fs.toStore.batchedActions.getD [] ++ [⟨t, p⟩]),
            batchCount := fs.toStore.batchCount + 1 } :=
        beginAction_not_root t p fs.toStore (by omega)
      have hbc : (fbeginAction t p fs).toStore.batchCount = fs.toStore.batchCount + 1 := by
        show (beginAction t p fs.toStore).batchCount = _
        rw [hb]
      have hbi : (fbeginAction t p fs).toStore.initialState = fs.toStore.initialState := by
        show (beginAction t p fs.toStore).initialState = _
        rw [hb]
      have hbn : (fbeginAction t p fs).toStore.notifications = fs.toStore.notifications := by
        show (beginAction t p fs.toStore).notifications = _
        rw [hb]
      have hbk : (fbeginAction t p fs).toStore.clock = fs.toStore.clock := by
        show (beginAction t p fs.toStore).clock = _
        rw [hb]
      have hbf : (fbeginAction t p fs).flushedState = fs.flushedState := rfl
      have hba : (fbeginAction t p fs).toStore.batchedActions =
          some (fs.toStore.batchedActions.getD [] ++ [⟨t, p⟩]) := by
        show (beginAction t p fs.toStore).batchedActions = _
        rw [hb]
      simp only [liftB, runF]
      cases hrb : runF (liftB b) (fbeginAction t p fs) with
      | mk r0 fs2 =>
        dsimp only
        obtain ⟨h1, h2, h3, h4, h5, h6⟩ := ih (fbeginAction t p fs) (by omega)
        rw [hrb] at h1 h2 h3 h4 h5 h6
        dsimp only at h1 h2 h3 h4 h5 h6
        rw [hbc] at h1
        rw [hbi] at h2
        rw [hbn] at h3
        rw [hbf] at h4
        rw [hbk] at h5
        have hset := fsettleAction_nested r0 fs2 (by omega)
        rw [hset]
        dsimp only
        refine ⟨by omega, h2, h3, h4, h5, ?_⟩
        intro l hl hok
        cases r0 with
        | error e => exact absurd hok (by simp)
        | ok u =>
          cases u
          have hba2 : (fbeginAction t p fs).toStore.batchedActions = some (l ++ [⟨t, p⟩]) := by
            rw [hba, hl, Option.getD_some]
          have h7 := h6 (l ++ [⟨t, p⟩]) hba2 rfl
          simp only [trace, List.append_assoc, List.singleton_append] at h7 ⊢
          exact h7

theorem c5_base (s : Store σ) (hid : s.Idle) : C5Inv s.state 0 (mkSys s defaultOptions) :=
  ⟨hid, rfl, rfl, fun _ => rfl, rfl, rfl, rfl, rfl⟩

theorem c5run_steps : ∀ n, c5okAll n = true → SuccSteps natSys n (c5run n) := by
  intro n
  induction n with
  | zero => intro _; exact SuccSteps.nil natSys
  | succ m ih =>
      intro h
      simp only [c5okAll, Bool.and_eq_true] at h
      obtain ⟨⟨h1, h2⟩, h3⟩ := h
      have hok : (Sys.runRootAction "INCREMENT" Payload.empty (incBody 1) (c5run m)).1 =
          Except.ok () := by
        cases hr : (Sys.runRootAction "INCREMENT" Payload.empty (incBody 1) (c5run m)).1 with
        | ok u => cases u; rfl
        | error e => rw [hr] at h2; simp at h2
      have hchg := of_decide_eq_true h3
      exact SuccSteps.cons "INCREMENT" Payload.empty (incBody 1) (ih h1) hok hchg

/-- C5 counterexample: with default options (`maxHistorySize` 50), after
`N = 50` successful state-changing top-level actions the log holds 50
entries, not `N + 1 = 51` — the oldest entry was trimmed. -/
theorem c5_counterexample :
    c5okAll 50 = true
  ∧ SuccSteps (mkSys natStore defaultOptions) 50 (c5run 50)
  ∧ (Sys.getHistory (c5run 50)).length = 50
  ∧ (Sys.getHistory (c5run 50)).length ≠ 50 + 1 := by
  have h1 : c5okAll 50 = true := by decide
  exact ⟨h1, c5run_steps 50 h1, rfl, by decide⟩

/-- C5 (amended): for a default-options `History` overlay, after `N`
successful state-changing top-level actions with `1 ≤ N` and
`N + 1 ≤ maxHistorySize = 50`, `canUndo()` is true and the log holds
`N + 1` entries (the initial entry plus one per action); after `N` undos,
`canUndo()` is false and the store state is reference-identical to the
overlay's recorded initial state; `undo()`/`redo()` return true exactly
when the cursor moved, and `redo()` at the last entry returns false. -/
theorem c5_history_undo_redo (s : Store σ) (hid : s.Idle) (N : Nat) (sysN : Sys σ)
    (hsteps : SuccSteps (mkSys s defaultOptions) N sysN)
    (hN1 : 1 ≤ N) (hN : N + 1 ≤ 50) :
    Sys.canUndo sysN = true
  ∧ (Sys.getHistory sysN).length = N + 1
  ∧ Sys.canUndo (undoN N sysN) = false
  ∧ (undoN N sysN).store.state = Sys.getInitialState sysN
  ∧ Sys.getInitialState sysN = s.state
  ∧ (∀ sys : Sys σ, (Sys.undo sys).1 = true ↔
      (Sys.undo sys).2.hist.currentIndex ≠ sys.hist.currentIndex)
  ∧ (∀ sys : Sys σ, (Sys.redo sys).1 = true ↔
      (Sys.redo sys).2.hist.currentIndex ≠ sys.hist.currentIndex)
  ∧ (∀ sys : Sys σ, sys.hist.currentIndex = (sys.hist.entries.length : Int) - 1 →
      (Sys.redo sys).1 = false) := by
  have hmain : ∀ (n : Nat) (sysn : Sys σ), SuccSteps (mkSys s defaultOptions) n sysn →
      n + 1 ≤ 50 → C5Inv s.state n sysn := by
    intro n sysn hst
    induction hst with
    | nil => intro _; exact c5_base s hid
    | cons t p b hprev hok hchg ih =>
        intro hle
        exact c5_step s.state _ _ (ih (by omega)) (by omega) t p b hok hchg
  obtain ⟨hidle, hsub, hmax, hsc, hini, hlen, hci, hhead⟩ := hmain N sysN hsteps hN
  have hchain := undo_chain sysN.hist.entries N sysN rfl hci (by rw [hlen]; omega)
  refine ⟨?_, hlen, ?_, ?_, hini, undo_moved_iff, redo_moved_iff,
    fun sys h => redo_at_end_false sys h⟩
  · simp only [Sys.canUndo, hci, decide_eq_true_eq]
    omega
  · simp [Sys.canUndo, hchain.2.1]
  · have hstate := hchain.2.2 hN1
    have h2 := hstate.symm.trans hhead
    injection h2 with h3
    rw [h3]
    exact hini.symm

/-- C5 witness: one `increment(1)` on the fresh system, then one undo. -/
theorem c5_witness :
    Sys.canUndo (Sys.runRootAction "INCREMENT" Payload.empty (incBody 1) natSys).2 = true
  ∧ (undoN 1 (Sys.runRootAction "INCREMENT" Payload.empty (incBody 1) natSys).2).store.state
      = Sys.getInitialState (Sys.runRootAction "INCREMENT" Payload.empty (incBody 1) natSys).2 := by
  have h := c5_history_undo_redo natStore ⟨rfl, rfl, rfl, rfl⟩ 1
    (Sys.runRootAction "INCREMENT" Payload.empty (incBody 1) natSys).2
    (SuccSteps.cons "INCREMENT" Payload.empty (incBody 1) (SuccSteps.nil natSys) rfl (by decide))
    (by omega) (by omega)
  exact ⟨h.1, h.2.2.2.1⟩

theorem c6_witness :
    (Sys.getHistory
      (applyOps
        [HOp.act "INCREMENT" Payload.empty (incBody 1),
         HOp.act "INCREMENT" Payload.empty (incBody 2),
         HOp.act "INCREMENT" Payload.empty (incBody 3),
         HOp.act "INCREMENT" Payload.empty (incBody 4)]
        (mkSys natStore ⟨some 3, none, none⟩))).length ≤ 3 :=
  (c6_max_history_bound 3 (by omega) natStore none none
    [HOp.act "INCREMENT" Payload.empty (incBody 1),
     HOp.act "INCREMENT" Payload.empty (incBody 2),
     HOp.act "INCREMENT" Payload.empty (incBody 3),
     HOp.act "INCREMENT" Payload.empty (incBody 4)]).1

/-- C3: calling `flush()` once mid-batch (body `b1`, then `flush()`, then
body `b2`, all succeeding and state-changing) immediately notifies
subscribers with (batch-start state, current flushed state, the actions
accumulated so far — root record first); the final batch-completion
notification then reports the flushed state as its previous state, and its
action log is a single synthetic `FLUSH` record carrying the ordered
flushed action type names and a flush timestamp followed by the post-flush
records, instead of replaying the pre-flush actions individually. -/
theorem c3_flush_once (t : String) (p : Payload) (b1 b2 : Body σ) (fs : FStore σ)
    (hid : fs.FIdle)
    (hok1 : (runF (liftB b1) (fbeginAction t p fs)).1 = Except.ok ())
    (hchg1 : (c3afterB1 t p b1 fs).toStore.state.addr ≠ fs.toStore.state.addr)
    (hok2 : (runF (liftB b2) (c3afterFlush t p b1 fs)).1 = Except.ok ())
    (hchg2 : (c3afterB2 t p b1 b2 fs).toStore.state.addr
      ≠ (c3afterB1 t p b1 fs).toStore.state.addr)
    (habort : (c3afterB2 t p b1 b2 fs).toStore.abortSignal ≠ some true) :
    (runF (flushOnce t p b1 b2) fs).1 = Except.ok ()
  ∧ (runF (flushOnce t p b1 b2) fs).2.toStore.notifications =
      fs.toStore.notifications ++
        [⟨fs.toStore.state, (c3afterB1 t p b1 fs).toStore.state, ⟨t, p⟩ :: trace b1⟩,
         ⟨(c3afterB1 t p b1 fs).toStore.state, (c3afterB2 t p b1 b2 fs).toStore.state,
          ⟨"FLUSH",
            Payload.flushMeta ((⟨t, p⟩ :: trace b1 : List ActionType).map (fun a => a.type))
              fs.toStore.clock⟩ :: trace b2⟩]
  ∧ (runF (flushOnce t p b1 b2) fs).2.toStore.state = (c3afterB2 t p b1 b2 fs).toStore.state
  ∧ (runF (flushOnce t p b1 b2) fs).2.flushedState = none := by
  obtain ⟨⟨hc, hban, hin, hsig⟩, hfl⟩ := hid
  simp only [c3afterB1, c3afterFlush, c3afterB2] at hchg1 hok2 hchg2 habort ⊢
  have hbr := beginAction_root t p fs.toStore hc
  have hbegC : (fbeginAction t p fs).toStore.batchCount = 1 := by
    show (beginAction t p fs.toStore).batchCount = 1
    rw [hbr, hc]
  have hbegI : (fbeginAction t p fs).toStore.initialState = some fs.toStore.state := by
    show (beginAction t p fs.toStore).initialState = _
    rw [hbr]
  have hbegN : (fbeginAction t p fs).toStore.notifications = fs.toStore.notifications := by
    show (beginAction t p fs.toStore).notifications = _
    rw [hbr]
  have hbegB : (fbeginAction t p fs).toStore.batchedActions = some [⟨t, p⟩] := by
    show (beginAction t p fs.toStore).batchedActions = _
    rw [hbr]
    simp [hban]
  have hbegK : (fbeginAction t p fs).toStore.clock = fs.toStore.clock := by
    show (beginAction t p fs.toStore).clock = _
    rw [hbr]
  have hbegF : (fbeginAction t p fs).flushedState = none := hfl
  obtain ⟨hA1, hA2, hA3, hA4, hA5, hA6⟩ :=
    runF_lift_nested b1 (fbeginAction t p fs) (by simp [hbegC])
  have hA1' : (runF (liftB b1) (fbeginAction t p fs)).2.toStore.batchCount = 1 := by
    rw [hA1, hbegC]
  have hA2' : (runF (liftB b1) (fbeginAction t p fs)).2.toStore.initialState =
      some fs.toStore.state := by
    rw [hA2, hbegI]
  have hA3' : (runF (liftB b1) (fbeginAction t p fs)).2.toStore.notifications =
      fs.toStore.notifications := by
    rw [hA3, hbegN]
  have hA4' : (runF (liftB b1) (fbeginAction t p fs)).2.flushedState = none := by
    rw [hA4]
    exact hbegF
  have hA5' : (runF (liftB b1) (fbeginAction t p fs)).2.toStore.clock =
      fs.toStore.clock := by
    rw [hA5, hbegK]
  have hA6' : (runF (liftB b1) (fbeginAction t p fs)).2.toStore.batchedActions =
      some (⟨t, p⟩ :: trace b1) := by
    have := hA6 [⟨t, p⟩] hbegB hok1
    simpa using this
  have hBeq : fflushStep (runF (liftB b1) (fbeginAction t p fs)).2 =
      (Except.ok (),
       ⟨{ (runF (liftB b1) (fbeginAction t p fs)).2.toStore with
          notifications := fs.toStore.notifications ++
            [⟨fs.toStore.state, (runF (liftB b1) (fbeginAction t p fs)).2.toStore.state,
              ⟨t, p⟩ :: trace b1⟩],
          batchedActions := some [⟨"FLUSH",
            Payload.flushMeta ((⟨t, p⟩ :: trace b1 : List ActionType).map (fun a => a.type))
              fs.toStore.clock⟩],
          clock := fs.toStore.clock + 1 },
        some (runF (liftB b1) (fbeginAction t p fs)).2.toStore.state⟩) := by
    simp only [fflushStep]
    rw [if_neg (by rw [hA1']; omega)]
    simp only [hA6', Option.getD_some, hA4', Option.isSome_none, Bool.false_eq_true,
      if_false, List.isEmpty_cons, hA2', Option.getD_none]
    unfold notifyGate
    rw [if_neg (fun h => hchg1 h.symm)]
    simp only [hA3', hA5']
    rw [hA2']
  have h1pair : runF (liftB b1) (fbeginAction t p fs) =
      (Except.ok (), (runF (liftB b1) (fbeginAction t p fs)).2) := by
    cases hr : runF (liftB b1) (fbeginAction t p fs) with
    | mk r a =>
      rw [hr] at hok1
      dsimp only at hok1
      rw [hok1]
  have h3pair : runF (liftB b2) (fflushStep (runF (liftB b1) (fbeginAction t p fs)).2).2 =
      (Except.ok (),
       (runF (liftB b2) (fflushStep (runF (liftB b1) (fbeginAction t p fs)).2).2).2) := by
    cases hr : runF (liftB b2) (fflushStep (runF (liftB b1) (fbeginAction t p fs)).2).2 with
    | mk r a =>
      rw [hr] at hok2
      dsimp only at hok2
      rw [hok2]
  obtain ⟨hC1, hC2, hC3, hC4, hC5, hC6⟩ :=
    runF_lift_nested b2 (fflushStep (runF (liftB b1) (fbeginAction t p fs)).2).2
      (by rw [hBeq]; simpa using le_of_eq hA1'.symm)
  have hB_C : (fflushStep (runF (liftB b1) (fbeginAction t p fs)).2).2.toStore.batchCount
      = 1 := by
    rw [hBeq]
    exact hA1'
  have hB_I : (fflushStep (runF (liftB b1) (fbeginAction t p fs)).2).2.toStore.initialState
      = some fs.toStore.state := by
    rw [hBeq]
    exact hA2'
  have hB_N : (fflushStep (runF (liftB b1) (fbeginAction t p fs)).2).2.toStore.notifications
      = fs.toStore.notifications ++
          [⟨fs.toStore.state, (runF (liftB b1) (fbeginAction t p fs)).2.toStore.state,
            ⟨t, p⟩ :: trace b1⟩] := by
    rw [hBeq]
  have hB_F : (fflushStep (runF (liftB b1) (fbeginAction t p fs)).2).2.flushedState
      = some (runF (liftB b1) (fbeginAction t p fs)).2.toStore.state := by
    rw [hBeq]
  have hB_B : (fflushStep (runF (liftB b1) (fbeginAction t p fs)).2).2.toStore.batchedActions
      = some [⟨"FLUSH",
          Payload.flushMeta ((⟨t, p⟩ :: trace b1 : List ActionType).map (fun a => a.type))
            fs.toStore.clock⟩] := by
    rw [hBeq]
  have hC1' := hC1.trans hB_C
  have hC2' := hC2.trans hB_I
  have hC3' := hC3.trans hB_N
  have hC4' := hC4.trans hB_F
  have hC6' : (runF (liftB b2)
      (fflushStep (runF (liftB b1) (fbeginAction t p fs)).2).2).2.toStore.batchedActions
      = some (⟨"FLUSH",
          Payload.flushMeta ((⟨t, p⟩ :: trace b1 : List ActionType).map (fun a => a.type))
            fs.toStore.clock⟩ :: trace b2) := by
    have := hC6 _ hB_B hok2
    simpa using this
  have h2pair : fflushStep (runF (liftB b1) (fbeginAction t p fs)).2 =
      (Except.ok (), (fflushStep (runF (liftB b1) (fbeginAction t p fs)).2).2) := by
    rw [hBeq]
  have hbodyrun : runF (FBody.fseq (liftB b1) (FBody.fseq FBody.fflush (liftB b2)))
      (fbeginAction t p fs) =
      (Except.ok (),
       (runF (liftB b2) (fflushStep (runF (liftB b1) (fbeginAction t p fs)).2).2).2) := by
    conv_lhs => rw [runF]
    rw [h1pair]
    dsimp only
    conv_lhs => rw [runF]
    rw [show runF (FBody.fflush : FBody σ) (runF (liftB b1) (fbeginAction t p fs)).2 =
      fflushStep (runF (liftB b1) (fbeginAction t p fs)).2 from rfl, h2pair]
    dsimp only
    exact h3pair
  have hfin : runF (flushOnce t p b1 b2) fs =
      fsettleAction (Except.ok ())
        (runF (liftB b2) (fflushStep (runF (liftB b1) (fbeginAction t p fs)).2).2).2 := by
    show runF (FBody.fcall t p (FBody.fseq (liftB b1) (FBody.fseq FBody.fflush (liftB b2)))) fs = _
    conv_lhs => rw [runF]
    rw [hbodyrun]
  rw [hfin]
  simp only [fsettleAction]
  rw [if_neg habort]
  rw [if_pos (by rw [hC1'])]
  simp only [hC2']
  simp only [hC4', Option.getD_some, hC6']
  unfold notifyGate
  rw [if_neg (fun h => hchg2 h.symm)]
  refine ⟨by trivial, ?_, by trivial, by trivial⟩
  dsimp only [clearBatch]
  rw [hC3']
  simp [List.append_assoc]

/-- C3 witness: the flush scenario instantiated on the concrete store —
`increment(2)`, `increment(3)`, `flush()`, then one more nested action. -/
theorem c3_witness :
    (runF (flushOnce "FLUSHING_ACTION" Payload.empty c3b1 c3b2) natFStore).2.toStore.notifications =
      natFStore.toStore.notifications ++
        [⟨natFStore.toStore.state,
          (c3afterB1 "FLUSHING_ACTION" Payload.empty c3b1 natFStore).toStore.state,
          ⟨"FLUSHING_ACTION", Payload.empty⟩ :: trace c3b1⟩,
         ⟨(c3afterB1 "FLUSHING_ACTION" Payload.empty c3b1 natFStore).toStore.state,
          (c3afterB2 "FLUSHING_ACTION" Payload.empty c3b1 c3b2 natFStore).toStore.state,
          ⟨"FLUSH",
            Payload.flushMeta
              ((⟨"FLUSHING_ACTION", Payload.empty⟩ :: trace c3b1 : List ActionType).map
                (fun a => a.type))
              natFStore.toStore.clock⟩ :: trace c3b2⟩] :=
  (c3_flush_once "FLUSHING_ACTION" Payload.empty c3b1 c3b2 natFStore
    ⟨⟨rfl, rfl, rfl, rfl⟩, rfl⟩ rfl (by decide) rfl (by decide) (by decide)).2.1

end Dazl
